import Mathlib

/-!
Verification of the monaco configuration-as-code deployment engine
(dynatrace-monitoring-as-code) against its natural-language specification.

The Go sources are shallowly embedded as executable Lean definitions:
  * `internal/featureflags/featureflags.go` (feature-flag evaluation),
  * `pkg/manifest` manifest loading (version validation, URL parsing,
    auth parsing, environment/group filtering),
  * `pkg/project/v2` project loading (duplicate config identifiers,
    all-or-nothing `LoadProjects`),
  * `cmd/monaco/deploy/deploy.go` (platform-only validation gate).
Collaborators that live outside the embedded files (the OS environment,
the filesystem, per-project loaders, HTTP clients) are passed in as
explicit function arguments, so every definition stays computable.

Components whose implementation is not among the available source files
(the Settings 2.0 upsert, the classic non-unique-name upsert, the
parameter topological sort, the external-id generator) are modelled from
the specification's words; each such definition's doc comment says so.
-/

namespace Monaco

/-! ## Shared string helpers (Go standard library fragments) -/

/-- Go `strings.HasSuffix(s, suffix)`, at the character level (the Go
original is byte-level; the two agree on valid UTF-8 suffix boundaries,
and every suffix the embedded code tests is ASCII). -/
def hasSuffix (s suffix : String) : Bool :=
  suffix.data.isSuffixOf s.data

/-- Go `strings.TrimSuffix(s, suffix)`: remove one trailing copy of
`suffix` from `s` if present; otherwise return `s` unchanged. -/
def trimSuffix (s suffix : String) : String :=
  if hasSuffix s suffix then ⟨s.data.take (s.data.length - suffix.data.length)⟩
  else s

/-- Go `strings.ToLower` on one character, for the ASCII range the
feature-flag values use: map 'A'..'Z' to 'a'..'z', leave the rest. -/
def toLowerChar (c : Char) : Char :=
  if 'A' ≤ c ∧ c ≤ 'Z' then Char.ofNat (c.toNat + 32) else c

/-- Go `strings.ToLower` (ASCII fragment): lower-case every character. -/
def stringsToLower (s : String) : String :=
  ⟨s.data.map toLowerChar⟩

/-- Go `strconv.ParseBool`: accepts exactly
"1", "t", "T", "TRUE", "true", "True" (true) and
"0", "f", "F", "FALSE", "false", "False" (false); anything else errors. -/
def strconvParseBool (s : String) : Option Bool :=
  if s = "1" ∨ s = "t" ∨ s = "T" ∨ s = "TRUE" ∨ s = "true" ∨ s = "True" then
    some true
  else if s = "0" ∨ s = "f" ∨ s = "F" ∨ s = "FALSE" ∨ s = "false" ∨ s = "False" then
    some false
  else
    none

/-! ## `internal/featureflags/featureflags.go`

A `FeatureFlag` holds an environment-variable name and a default. The
process environment is embedded as a lookup function
`String → Option String` (Go `os.LookupEnv`), passed explicitly to
`Enabled` so that the dependence of each evaluation on the current
environment is visible in the type. -/

/-- `featureflags.FeatureFlag`: a command line switch read from an
environment variable with a default value. -/
structure FeatureFlag where
  envName : String
  defaultEnabled : Bool
deriving DecidableEq

/-- `FeatureFlag.Enabled` (featureflags.go lines 54-64): look the
environment variable up at evaluation time; parse its lower-cased value
with `strconv.ParseBool`; fall back to the default when the variable is
unset or unparsable. -/
def FeatureFlag.Enabled (ff : FeatureFlag) (env : String → Option String) : Bool :=
  match env ff.envName with
  | some val =>
    match strconvParseBool (stringsToLower val) with
    | some enabled => enabled
    | none => ff.defaultEnabled
  | none => ff.defaultEnabled

/-- `featureflags.DependencyGraphBasedDeploy` (featureflags.go lines
169-174): the graph-deploy flag consulted by the deploy command. -/
def DependencyGraphBasedDeploy : FeatureFlag :=
  { envName := "MONACO_FEAT_GRAPH_DEPLOY", defaultEnabled := false }

/-! ## Manifest version validation (`pkg/manifest`, `validateManifestVersion`) -/

/-- Modelled from the spec: `manifestVersion: <semver>`. The version
parser `internal/version.ParseVersion` is not among the repository's
available source files; a version is modelled as the three numeric
components of a semver string. -/
structure Version where
  major : Nat
  minor : Nat
  patch : Nat
deriving DecidableEq

/-- Modelled from the spec: parse a `major.minor.patch` semver string;
any other shape fails. -/
def ParseVersion (s : String) : Option Version :=
  match s.splitOn "." with
  | [a, b, c] =>
    match a.toNat?, b.toNat?, c.toNat? with
    | some x, some y, some z => some { major := x, minor := y, patch := z }
    | _, _, _ => none
  | _ => none

/-- Modelled from the spec: lexicographic order on semver components. -/
def Version.SmallerThan (v w : Version) : Bool :=
  (v.major < w.major) ||
  (v.major == w.major && v.minor < w.minor) ||
  (v.major == w.major && v.minor == w.minor && v.patch < w.patch)

/-- Modelled from the spec: the converse of `SmallerThan`. -/
def Version.GreaterThan (v w : Version) : Bool :=
  w.SmallerThan v

/-- The distinct rejection reasons of `validateManifestVersion`
(manifest loader, lines 316-335). -/
inductive VersionError where
  | missing
  | invalid
  | tooOld (given : String)
  | tooNew (given : String)
deriving DecidableEq

/-- `validateManifestVersion` (manifest loader, lines 316-335): reject an
empty version string, a string that does not parse, a version below the
minimum or above the maximum supported version; accept everything else.
The supported bounds (`version.MinManifestVersion`,
`version.ManifestVersion`) are package constants outside the embedded
file and are passed as arguments `minV` and `maxV`. -/
def validateManifestVersion (minV maxV : Version) (manifestVersion : String) :
    Option VersionError :=
  if manifestVersion.length = 0 then
    some .missing
  else
    match ParseVersion manifestVersion with
    | none => some .invalid
    | some v =>
      if v.SmallerThan minV then some (.tooOld manifestVersion)
      else if v.GreaterThan maxV then some (.tooNew manifestVersion)
      else none

/-! ## Manifest URL parsing (`pkg/manifest`, `parseURLDefinition`) -/

/-- The raw `url` YAML node: a type discriminator string and a value. -/
structure YamlURL where
  urlType : String
  value : String
deriving DecidableEq

/-- The parsed URL type (`manifest.ValueURLType` /
`manifest.EnvironmentURLType`). -/
inductive URLType where
  | value
  | environment
deriving DecidableEq

/-- `manifest.URLDefinition`: the parsed URL. `name` is the environment
variable the value was resolved from (empty for literal URLs). -/
structure URLDefinition where
  urlType : URLType
  value : String
  name : String
deriving DecidableEq

/-- The YAML discriminator strings for URL types (`urlTypeValue`,
`urlTypeEnvironment`), as the spec writes them:
`url: { type: value|environment, value }`. -/
def urlTypeValue : String := "value"

/-- See `urlTypeValue`. -/
def urlTypeEnvironment : String := "environment"

/-- `parseURLDefinition` (manifest loader, lines 447-494). A blank
`url.value` is an error. A literal URL (type empty or "value") is
returned with one trailing "/" trimmed. An environment URL is resolved
via `os.LookupEnv` (here the `envLookup` argument) unless
`dontResolveEnvVars` is set; unset or empty variables error loudly, and
the resolved value has one trailing "/" trimmed. Unknown types error. -/
def parseURLDefinition (envLookup : String → Option String)
    (dontResolveEnvVars : Bool) (u : YamlURL) : Except String URLDefinition :=
  if u.value = "" then
    .error "no `Url` configured or value is blank"
  else if u.urlType = "" ∨ u.urlType = urlTypeValue then
    .ok { urlType := .value, value := trimSuffix u.value "/", name := "" }
  else if u.urlType = urlTypeEnvironment then
    if dontResolveEnvVars then
      .ok { urlType := .environment,
            value := "SKIPPED RESOLUTION OF ENV_VAR: " ++ u.value,
            name := u.value }
    else
      match envLookup u.value with
      | none =>
        .error ("environment variable \"" ++ u.value ++ "\" could not be found")
      | some v =>
        if v = "" then
          .error ("environment variable \"" ++ u.value ++ "\" is defined but has no value")
        else
          .ok { urlType := .environment, value := trimSuffix v "/", name := u.value }
  else
    .error ("\"" ++ u.urlType ++ "\" is not a valid URL type")

/-! ## Manifest environments and groups (`pkg/manifest`, `toEnvironments`)

The raw YAML structures (`group`, `environment`, `auth`, `authSecret`,
`oAuth`) and their parsed counterparts, plus the environment/group
filtering loop. `os.LookupEnv` is again the `envLookup` argument. -/

/-- The raw `authSecret` YAML node (`type`, `name`). -/
structure YamlAuthSecret where
  secretType : String
  name : String
deriving DecidableEq

/-- The raw `oAuth` YAML node. -/
structure YamlOAuth where
  clientId : YamlAuthSecret
  clientSecret : YamlAuthSecret
  tokenEndpoint : Option YamlURL
deriving DecidableEq

/-- The raw `auth` YAML node. -/
structure YamlAuth where
  token : YamlAuthSecret
  oauth : Option YamlOAuth
deriving DecidableEq

/-- The raw `environment` YAML node. -/
structure YamlEnvironment where
  name : String
  url : YamlURL
  auth : YamlAuth
deriving DecidableEq

/-- The raw `group` YAML node. -/
structure YamlGroup where
  name : String
  environments : List YamlEnvironment
deriving DecidableEq

/-- `manifest.AuthSecret`: a resolved secret. -/
structure AuthSecret where
  name : String
  value : String
deriving DecidableEq

/-- `manifest.OAuth`: resolved OAuth credentials. -/
structure OAuth where
  clientId : AuthSecret
  clientSecret : AuthSecret
  tokenEndpoint : Option URLDefinition
deriving DecidableEq

/-- `manifest.Auth`: token plus optional OAuth credentials. -/
structure Auth where
  token : AuthSecret
  oauth : Option OAuth
deriving DecidableEq

/-- `manifest.EnvironmentDefinition`: a fully parsed environment. -/
structure EnvironmentDefinition where
  name : String
  url : URLDefinition
  auth : Auth
  group : String
deriving DecidableEq

/-- The manifest loader's error values: `ManifestLoaderError` (a path and
a reason) and `EnvironmentLoaderError` (additionally group/environment). -/
inductive ManifestError where
  | loader (manifestPath : String) (reason : String)
  | environmentLoader (manifestPath : String) (group : String)
      (environment : String) (reason : String)
deriving DecidableEq

/-- The subset of `manifest.LoaderContext` the embedded loader functions
consult: the manifest path, the environment and group filters, and the
`DontResolveEnvVars` loader option. -/
structure LoaderContext where
  manifestPath : String
  environments : List String
  groups : List String
  dontResolveEnvVars : Bool
deriving DecidableEq

/-- The `typeEnvironment` discriminator for auth secrets. -/
def typeEnvironment : String := "environment"

/-- `parseAuthSecret` (manifest loader, lines 207-235): the secret's type
must be "environment" (or empty), its name nonempty; the value is
resolved from the environment unless `DontResolveEnvVars`, failing loudly
when the variable is unset or empty. -/
def parseAuthSecret (ctx : LoaderContext) (envLookup : String → Option String)
    (s : YamlAuthSecret) : Except String AuthSecret :=
  if ¬(s.secretType = typeEnvironment ∨ s.secretType = "") then
    .error "type must be 'environment'"
  else if s.name = "" then
    .error "no name given or empty"
  else if ctx.dontResolveEnvVars then
    .ok { name := s.name, value := "SKIPPED RESOLUTION OF ENV_VAR: " ++ s.name }
  else
    match envLookup s.name with
    | none => .error ("environment-variable \"" ++ s.name ++ "\" was not found")
    | some v =>
      if v = "" then
        .error ("environment-variable \"" ++ s.name ++ "\" found, but the value resolved is empty")
      else
        .ok { name := s.name, value := v }

/-- `parseOAuth` (manifest loader, lines 237-266). -/
def parseOAuth (ctx : LoaderContext) (envLookup : String → Option String)
    (a : YamlOAuth) : Except String OAuth :=
  match parseAuthSecret ctx envLookup a.clientId with
  | .error e => .error ("failed to parse ClientID: " ++ e)
  | .ok clientID =>
    match parseAuthSecret ctx envLookup a.clientSecret with
    | .error e => .error ("failed to parse ClientSecret: " ++ e)
    | .ok clientSecret =>
      match a.tokenEndpoint with
      | some te =>
        match parseURLDefinition envLookup ctx.dontResolveEnvVars te with
        | .error e => .error ("failed to parse \"tokenEndpoint\": " ++ e)
        | .ok urlDef =>
          .ok { clientId := clientID, clientSecret := clientSecret,
                tokenEndpoint := some urlDef }
      | none =>
        .ok { clientId := clientID, clientSecret := clientSecret,
              tokenEndpoint := none }

/-- `parseAuth` (manifest loader, lines 183-205). -/
def parseAuth (ctx : LoaderContext) (envLookup : String → Option String)
    (a : YamlAuth) : Except String Auth :=
  match parseAuthSecret ctx envLookup a.token with
  | .error e => .error ("error parsing token: " ++ e)
  | .ok token =>
    match a.oauth with
    | none => .ok { token := token, oauth := none }
    | some o =>
      match parseOAuth ctx envLookup o with
      | .error e => .error ("failed to parse OAuth credentials: " ++ e)
      | .ok parsed => .ok { token := token, oauth := some parsed }

/-- `parseEnvironment` (manifest loader, lines 422-445): parse auth and
URL, collecting both errors rather than stopping at the first. -/
def parseEnvironment (ctx : LoaderContext) (envLookup : String → Option String)
    (config : YamlEnvironment) (group : String) :
    Except (List ManifestError) EnvironmentDefinition :=
  let authResult := parseAuth ctx envLookup config.auth
  let urlResult := parseURLDefinition envLookup ctx.dontResolveEnvVars config.url
  let errs :=
    (match authResult with
     | .error e => [ManifestError.environmentLoader ctx.manifestPath group config.name
         ("failed to parse auth section: " ++ e)]
     | .ok _ => []) ++
    (match urlResult with
     | .error e => [ManifestError.environmentLoader ctx.manifestPath group config.name e]
     | .ok _ => [])
  match authResult, urlResult with
  | .ok a, .ok urlDef =>
    .ok { name := config.name, url := urlDef, auth := a, group := group }
  | _, _ => .error errs

/-- Boolean string membership (the Go map-of-bool lookups
`groupNames[g]`, `envNames[e]`). -/
def memStr (l : List String) (s : String) : Bool :=
  l.any (fun x => x = s)

/-- `shouldSkipEnv` (manifest loader, lines 405-420). -/
def shouldSkipEnv (ctx : LoaderContext) (groupName envName : String) : Bool :=
  if ctx.groups.isEmpty && ctx.environments.isEmpty then false
  else if ctx.groups.contains groupName then false
  else if ctx.environments.contains envName then false
  else true

/-- The mutable state of the `toEnvironments` loops: seen group names,
seen environment names, accumulated errors, and the parsed environments
(the Go `map[string]EnvironmentDefinition`, as an association list). -/
structure EnvLoopState where
  groupNames : List String
  envNames : List String
  errors : List ManifestError
  envs : List (String × EnvironmentDefinition)
deriving DecidableEq

/-- The inner-loop body of `toEnvironments` (manifest loader, lines
355-382): one environment `env` at index `j` of group `groupName`. -/
def stepEnvironment (ctx : LoaderContext) (envLookup : String → Option String)
    (groupName : String) (j : Nat) (st : EnvLoopState) (env : YamlEnvironment) :
    EnvLoopState :=
  if env.name = "" then
    { st with errors := st.errors ++
        [.loader ctx.manifestPath ("missing environment name in group \"" ++ groupName ++ "\" on index `" ++ toString j ++ "`")] }
  else if memStr st.envNames env.name then
    { st with errors := st.errors ++
        [.loader ctx.manifestPath ("duplicated environment name \"" ++ env.name ++ "\"")] }
  else
    let st1 := { st with envNames := st.envNames ++ [env.name] }
    if shouldSkipEnv ctx groupName env.name then st1
    else
      match parseEnvironment ctx envLookup env groupName with
      | .error configErrors => { st1 with errors := st1.errors ++ configErrors }
      | .ok parsedEnv => { st1 with envs := st1.envs ++ [(parsedEnv.name, parsedEnv)] }

/-- The inner loop of `toEnvironments` over a group's environments. -/
def processEnvironments (ctx : LoaderContext) (envLookup : String → Option String)
    (groupName : String) (j : Nat) (st : EnvLoopState) :
    List YamlEnvironment → EnvLoopState
  | [] => st
  | env :: rest =>
    processEnvironments ctx envLookup groupName (j + 1)
      (stepEnvironment ctx envLookup groupName j st env) rest

/-- The outer-loop body of `toEnvironments` (manifest loader, lines
344-383): one group `g` at index `i`. -/
def stepGroup (ctx : LoaderContext) (envLookup : String → Option String)
    (i : Nat) (st : EnvLoopState) (g : YamlGroup) : EnvLoopState :=
  let st1 :=
    if g.name = "" then
      { st with errors := st.errors ++
          [.loader ctx.manifestPath ("missing group name on index `" ++ toString i ++ "`")] }
    else st
  let st2 :=
    if memStr st1.groupNames g.name then
      { st1 with errors := st1.errors ++
          [.loader ctx.manifestPath ("duplicated group name \"" ++ g.name ++ "\"")] }
    else st1
  let st3 := { st2 with groupNames := st2.groupNames ++ [g.name] }
  processEnvironments ctx envLookup g.name 0 st3 g.environments

/-- The outer loop of `toEnvironments` over all groups. -/
def processGroups (ctx : LoaderContext) (envLookup : String → Option String)
    (i : Nat) (st : EnvLoopState) : List YamlGroup → EnvLoopState
  | [] => st
  | g :: rest =>
    processGroups ctx envLookup (i + 1) (stepGroup ctx envLookup i st g) rest

/-- `toEnvironments` (manifest loader, lines 337-403): walk all groups
and environments collecting parsed environments and errors, then append
one "requested group/environment not found" error per requested filter
name that matched nothing; any error makes the whole call fail with a
`nil` map (here `none`). -/
def toEnvironments (ctx : LoaderContext) (envLookup : String → Option String)
    (groups : List YamlGroup) :
    Option (List (String × EnvironmentDefinition)) × List ManifestError :=
  let st := processGroups ctx envLookup 0 ⟨[], [], [], []⟩ groups
  let errs1 := st.errors ++
    (ctx.groups.filter (fun g => !(memStr st.groupNames g))).map
      (fun g => .loader ctx.manifestPath ("requested group \"" ++ g ++ "\" not found"))
  let errs2 := errs1 ++
    (ctx.environments.filter (fun e => !(memStr st.envNames e))).map
      (fun e => .loader ctx.manifestPath ("requested environment \"" ++ e ++ "\" not found"))
  if errs2 = [] then (some st.envs, []) else (none, errs2)

/-! ## Configurations and project loading (`pkg/project/v2`) -/

/-- `coordinate.Coordinate`: the `(Project, Type, ConfigId)` triple. -/
structure Coordinate where
  project : String
  ctype : String
  configId : String
deriving DecidableEq

/-- `Coordinate.String()`: the canonical `project:type:configId` form. -/
def Coordinate.asString (c : Coordinate) : String :=
  c.project ++ ":" ++ c.ctype ++ ":" ++ c.configId

/-- `config.Type`: the tagged-variant configuration type (classic API,
settings 2.0, automation, bucket), as the spec's §4.3 dialects. -/
inductive ConfigType where
  | classicApi (api : String)
  | settings (schemaId : String) (schemaVersion : String) (scope : String)
  | automation (resource : String)
  | bucket
deriving DecidableEq

/-- The fields of `config.Config` the embedded functions consult:
coordinate, group, environment, skip flag, dialect type, and
`References()` (the cross-config coordinates its parameters name). -/
structure Config where
  coordinate : Coordinate
  group : String
  environment : String
  skip : Bool
  ctype : ConfigType
  references : List Coordinate
deriving DecidableEq

/-- `configErrors.EnvironmentDetails`. -/
structure EnvironmentDetails where
  group : String
  environment : String
deriving DecidableEq

/-- `DuplicateConfigIdentifierError` (project loader, lines 43-46). -/
structure DuplicateConfigIdentifierError where
  location : Coordinate
  environmentDetails : EnvironmentDetails
deriving DecidableEq

/-- `newDuplicateConfigIdentifierError` (project loader, lines 60-68). -/
def newDuplicateConfigIdentifierError (c : Config) : DuplicateConfigIdentifierError :=
  { location := c.coordinate,
    environmentDetails := { group := c.group, environment := c.environment } }

/-- `toFullyQualifiedConfigIdentifier` (project loader, lines 228-230):
`group:environment:coordinate`. -/
def toFullyQualifiedConfigIdentifier (config : Config) : String :=
  config.group ++ ":" ++ config.environment ++ ":" ++ config.coordinate.asString

/-- The loop of `findDuplicatedConfigIdentifiers` with its seen-set
(`coordinates` in the Go code) made explicit. -/
def findDuplicatesLoop (seen : List String) : List Config → List Config
  | [] => []
  | c :: rest =>
    if memStr seen (toFullyQualifiedConfigIdentifier c) then
      c :: findDuplicatesLoop (toFullyQualifiedConfigIdentifier c :: seen) rest
    else
      findDuplicatesLoop (toFullyQualifiedConfigIdentifier c :: seen) rest

/-- `findDuplicatedConfigIdentifiers` (project loader, lines 211-223):
every configuration whose fully qualified identifier was already seen
earlier in the list. -/
def findDuplicatedConfigIdentifiers (configs : List Config) : List Config :=
  findDuplicatesLoop [] configs

/-- One error value of the project loader's heterogeneous `[]error`. -/
inductive ProjectError where
  | pathError (projectName : String) (path : String)
  | configError (message : String)
  | duplicate (e : DuplicateConfigIdentifierError)
deriving DecidableEq

/-- `manifest.ProjectDefinition` (name, group, path). -/
structure ProjectDefinition where
  name : String
  group : String
  path : String
deriving DecidableEq

/-- Association-list lookup (Go map read `m[k]`). -/
def assocLookup {β : Type} (m : List (String × β)) (k : String) : Option β :=
  match m with
  | [] => none
  | (k', v) :: rest => if k' = k then some v else assocLookup rest k

/-- Association-list upsert (Go map write `m[k] = f(m[k])`, with `dflt`
the zero value for an absent key). -/
def assocUpdate {β : Type} (m : List (String × β)) (k : String) (dflt : β)
    (f : β → β) : List (String × β) :=
  match m with
  | [] => [(k, f dflt)]
  | (k', v) :: rest =>
    if k' = k then (k', f v) :: rest else (k', v) :: assocUpdate rest k dflt f

/-- `project.Project`: id, group id, configs per environment per type,
and dependencies per environment (the Go nested maps as association
lists). -/
structure Project where
  id : String
  groupId : String
  configs : List (String × List (String × List Config))
  dependencies : List (String × List String)
deriving DecidableEq

/-- The `configMap` construction inside `loadProject` (project loader,
lines 139-147). -/
def buildConfigMap (configs : List Config) :
    List (String × List (String × List Config)) :=
  configs.foldl
    (fun m conf =>
      assocUpdate m conf.environment []
        (fun tm => assocUpdate tm conf.coordinate.ctype [] (fun l => l ++ [conf])))
    []

/-- `containsProject` (project loader, lines 256-264). -/
def containsProject (projects : List String) (project : String) : Bool :=
  projects.contains project

/-- `toDependenciesMap` (project loader, lines 232-254): the distinct
referenced foreign projects per environment, skipped configs ignored. -/
def toDependenciesMap (projectId : String) (configs : List Config) :
    List (String × List String) :=
  configs.foldl
    (fun result c =>
      if c.skip then result
      else
        c.references.foldl
          (fun result ref =>
            if projectId = ref.project then result
            else if containsProject ((assocLookup result c.environment).getD []) ref.project then result
            else assocUpdate result c.environment [] (fun l => l ++ [ref.project]))
          result)
    []

/-- `loadProject` (project loader, lines 114-155). The filesystem check
and `loadConfigsOfProject` are collaborators: `pathExists` is the
`afero.Exists` answer and `(loadedConfigs, loadErrs)` the configs and
errors `loadConfigsOfProject` produced. Duplicated identifiers append
one `DuplicateConfigIdentifierError` each; any error fails the project. -/
def loadProject (pathExists : Bool) (projectDefinition : ProjectDefinition)
    (loadedConfigs : List Config) (loadErrs : List ProjectError) :
    Except (List ProjectError) Project :=
  if ¬ pathExists then
    .error [.pathError projectDefinition.name projectDefinition.path]
  else
    let errs := loadErrs ++
      (findDuplicatedConfigIdentifiers loadedConfigs).map
        (fun c => .duplicate (newDuplicateConfigIdentifierError c))
    if errs = [] then
      .ok { id := projectDefinition.name,
            groupId := projectDefinition.group,
            configs := buildConfigMap loadedConfigs,
            dependencies := toDependenciesMap projectDefinition.name loadedConfigs }
    else
      .error errs

/-- `LoadProjects` (project loader, lines 70-102). Each manifest project
is loaded through the `loadProjectFn` collaborator (the `loadProject`
call with its filesystem inputs supplied); a project that errors is
skipped and its errors accumulated; any accumulated error makes the
whole call return `nil` projects (here `none`) with the errors.
`loadProjectsStep` is the loop body, `LoadProjects` the driver. -/
def loadProjectsStep
    (loadProjectFn : ProjectDefinition → Except (List ProjectError) Project)
    (acc : List Project × List ProjectError) (pd : ProjectDefinition) :
    List Project × List ProjectError :=
  match loadProjectFn pd with
  | .error projectErrors => (acc.1, acc.2 ++ projectErrors)
  | .ok project => (acc.1 ++ [project], acc.2)

/-- See `loadProjectsStep`: the `LoadProjects` driver. -/
def LoadProjects (projectDefs : List ProjectDefinition)
    (loadProjectFn : ProjectDefinition → Except (List ProjectError) Project) :
    Option (List Project) × List ProjectError :=
  let r := projectDefs.foldl (loadProjectsStep loadProjectFn) ([], [])
  if r.2 = [] then (some r.1, []) else (none, r.2)

/-! ## Deploy-command validation (`cmd/monaco/deploy/deploy.go`) -/

/-- `platformEnvironment` (deploy.go lines 348-350): an environment is a
platform environment iff its manifest definition has OAuth credentials. -/
def platformEnvironment (e : EnvironmentDefinition) : Bool :=
  e.auth.oauth.isSome

/-- `onlyAvailableOnPlatform` (deploy.go lines 352-358): Automation and
Bucket configuration types are platform exclusive. -/
def onlyAvailableOnPlatform (c : Config) : Bool :=
  match c.ctype with
  | .automation _ => true
  | .bucket => true
  | _ => false

/-- The two error shapes `checkEnvironments` produces (deploy.go lines
323-346): an environment missing from the manifest, or a non-platform
environment holding a platform-exclusive configuration (the error names
the environment and the configuration's coordinate). -/
inductive DeployCheckError where
  | envNotFound (envName : String)
  | notPlatform (envName : String) (location : Coordinate)
deriving DecidableEq

/-- `checkConfigsForEnvironment` (deploy.go lines 339-346): the first
non-skipped platform-exclusive configuration in a non-platform
environment yields an error naming the environment and the coordinate. -/
def checkConfigsForEnvironment (env : EnvironmentDefinition) (cfgs : List Config) :
    Option DeployCheckError :=
  (cfgs.find? (fun c => !c.skip && onlyAvailableOnPlatform c && !platformEnvironment env)).map
    (fun c => .notPlatform env.name c.coordinate)

/-- The inner loop of `checkEnvironments` over one project's
configurations-per-type for one environment. -/
def checkConfigLists (env : EnvironmentDefinition) :
    List (String × List Config) → Option DeployCheckError
  | [] => none
  | (_, cfgs) :: rest =>
    match checkConfigsForEnvironment env cfgs with
    | some e => some e
    | none => checkConfigLists env rest

/-- The loop of `checkEnvironments` over one project's environments. -/
def checkProjectConfigs (envs : List (String × EnvironmentDefinition)) :
    List (String × List (String × List Config)) → Option DeployCheckError
  | [] => none
  | (envName, cfgPerType) :: rest =>
    match assocLookup envs envName with
    | none => some (.envNotFound envName)
    | some env =>
      match checkConfigLists env cfgPerType with
      | some e => some e
      | none => checkProjectConfigs envs rest

/-- `checkEnvironments` (deploy.go lines 323-337): check every filtered
project against the manifest environments; the first problem aborts. -/
def checkEnvironments (projects : List Project)
    (envs : List (String × EnvironmentDefinition)) : Option DeployCheckError :=
  match projects with
  | [] => none
  | p :: rest =>
    match checkProjectConfigs envs p.configs with
    | some e => some e
    | none => checkEnvironments rest envs

/-- The validation gate of `deployConfigs` (deploy.go lines 64-66): a
`checkEnvironments` error returns before any client set is created or
any configuration deployed. `runDeploy` stands for the whole deployment
phase (graph or sequential) and is never consulted on the error path. -/
def deployConfigsValidated (filteredProjects : List Project)
    (envs : List (String × EnvironmentDefinition))
    (runDeploy : List Project → List Coordinate) :
    Except DeployCheckError (List Coordinate) :=
  match checkEnvironments filteredProjects envs with
  | some e => .error e
  | none => .ok (runDeploy filteredProjects)

/-- A concrete project holding one automation configuration (an
`automation.workflow`) assigned to environment "env1", with the given
skip flag — the platform-only validation scenario. -/
def exampleAutomationProject (skipFlag : Bool) : Project :=
  { id := "p", groupId := "",
    configs := [("env1",
      [("workflow",
        [{ coordinate := { project := "p", ctype := "workflow", configId := "wf1" },
           group := "default", environment := "env1", skip := skipFlag,
           ctype := .automation "workflow", references := [] }])])],
    dependencies := [] }

/-- A concrete manifest environment map with one token-only (no OAuth)
environment named "env1". -/
def exampleTokenEnvs : List (String × EnvironmentDefinition) :=
  [("env1",
    { name := "env1",
      url := { urlType := .value, value := "https://a.example.com", name := "" },
      auth := { token := { name := "TOKEN", value := "t" }, oauth := none },
      group := "default" })]

/-! ## Identity service (spec §4.1)

`internal/idutils` is not among the repository's available source files
(only its callers and integration tests are), so the identity functions
are modelled from the specification's words. -/

/-- Modelled from the spec: `generateExternalId(Coordinate) → string` —
"concatenate `Project|Type|ConfigId`, hash, prefix with `monaco:`". The
hash is modelled as the identity encoding of the separated concatenation
(an injective stand-in for a collision-free hash); the legacy form is
the same function at a coordinate whose `Project` is blanked, exactly as
`TestOldExternalIDGetsUpdated` builds it. -/
def GenerateExternalID (c : Coordinate) : String :=
  "monaco:" ++ c.project ++ "|" ++ c.ctype ++ "|" ++ c.configId

/-- Modelled from the spec: `generateLegacyExternalId(Type, ConfigId)` —
"same function ignoring `Project`, used only for migration lookup". -/
def GenerateLegacyExternalID (c : Coordinate) : String :=
  GenerateExternalID { c with project := "" }

/-- Modelled from the spec: `generateUuidFromCoordinate(Project,
ConfigId) → UUID` — a namespaced v3-style hash over the two components,
modelled as an injective encoding. -/
def GenerateUUIDFromConfigId (projectUniqueId configId : String) : String :=
  "uuid:" ++ projectUniqueId ++ "/" ++ configId

/-! ## Settings 2.0 upsert (spec §4.3.3)

`dtclient.UpsertSettings` is not among the repository's available source
files (only the integration test `TestOldExternalIDGetsUpdated` is), so
the upsert is modelled from the specification's algorithm and state
machine. The server's object store is a list of settings objects. -/

/-- A server-side settings object as the upsert sees it:
`(objectId, schemaId, externalId, scope)` plus the payload. -/
structure SettingsObject where
  objectId : String
  schemaId : String
  externalId : String
  scope : String
  value : String
deriving DecidableEq

/-- Modelled from the spec (§4.3.3): 1. compute
`extId = generateExternalId(Coordinate)`; 2. an object of the schema
whose `externalId` equals `extId` is upserted at its `objectId`;
3. otherwise an object matching the legacy external id is adopted and
rewritten — the upsert sets its external id to `extId`; 4. otherwise a
new object is POSTed (`freshId` is the server-assigned id); 5. a
configuration carrying `OriginObjectId` prefers it over search results.
Returns the resulting store and the object id written. -/
def UpsertSettings (state : List SettingsObject) (freshId : String)
    (coord : Coordinate) (schemaId scope value : String)
    (originObjectId : Option String) : List SettingsObject × String :=
  let extId := GenerateExternalID coord
  match originObjectId with
  | some oid =>
    if state.any (fun o => o.objectId == oid) then
      (state.map (fun o =>
        if o.objectId == oid then
          { o with schemaId := schemaId, externalId := extId, scope := scope, value := value }
        else o), oid)
    else
      (state ++ [{ objectId := oid, schemaId := schemaId, externalId := extId,
                   scope := scope, value := value }], oid)
  | none =>
    match state.find? (fun o => o.schemaId == schemaId && o.externalId == extId) with
    | some hit =>
      (state.map (fun o =>
        if o.objectId == hit.objectId then { o with scope := scope, value := value }
        else o), hit.objectId)
    | none =>
      let legacyExtId := GenerateLegacyExternalID coord
      match state.find? (fun o => o.schemaId == schemaId && o.externalId == legacyExtId) with
      | some hit =>
        (state.map (fun o =>
          if o.objectId == hit.objectId then
            { o with externalId := extId, scope := scope, value := value }
          else o), hit.objectId)
      | none =>
        (state ++ [{ objectId := freshId, schemaId := schemaId, externalId := extId,
                     scope := scope, value := value }], freshId)

/-! ## Classic non-unique-name upsert (spec §4.3.2)

`dtclient.UpsertConfigByNonUniqueNameAndId` is not among the
repository's available source files (only the integration test
`TestNonUniqueNameUpserts` is), so the upsert is modelled from the
specification's decision table. The server's store for one API is a list
of `(id, name)` values. -/

/-- `dtclient.Value`: a classic API object's id and display name. -/
structure ClassicValue where
  id : String
  name : String
deriving DecidableEq

/-- A PUT to a known object id: update the object if it exists, create
it otherwise; the id written is returned. -/
def putConfig (state : List ClassicValue) (objectId name : String) :
    List ClassicValue × String :=
  if state.any (fun o => o.id == objectId) then
    (state.map (fun o => if o.id == objectId then { o with name := name } else o),
     objectId)
  else
    (state ++ [{ id := objectId, name := name }], objectId)

/-- Modelled from the spec (§4.3.2 decision table): with zero objects of
the configured name, PUT to the deterministic id `entityId`; with
exactly one whose id equals `entityId`, PUT to it; with exactly one
whose id differs, PUT to the existing id (adopt, don't duplicate); with
two or more, PUT to `entityId` (create or update the uniquely
addressable one). -/
def UpsertConfigByNonUniqueNameAndId (state : List ClassicValue)
    (entityId name : String) : List ClassicValue × String :=
  match state.filter (fun o => o.name == name) with
  | [] => putConfig state entityId name
  | [m] =>
    if m.id == entityId then putConfig state entityId name
    else putConfig state m.id name
  | _ => putConfig state entityId name

/-! ## Parameter topological sort and single-config deploy (spec §4.2)

The parameter sort (`pkg/config/parameter` / the sort used by
`pkg/deploy/internal/setting.Deploy`) is not among the repository's
available source files (only its unit test
`TestDeploySettingShouldFailCyclicParameterDependencies` is), so it is
modelled from the specification: "Topologically sort the config's *own*
parameters using their `References()`; abort with a
`CyclicParameterDependency` error if a cycle exists", before any
template rendering or network call. -/

/-- A named parameter with the names of the own-config parameters its
`References()` points at. -/
structure NamedParameter where
  name : String
  references : List String
deriving DecidableEq

/-- A parameter is ready when none of its references names a parameter
still unsorted. -/
def parameterReady (remaining : List NamedParameter) (p : NamedParameter) : Bool :=
  p.references.all (fun r => !(remaining.any (fun q => q.name == r)))

/-- Pick the first ready parameter out of a worklist, returning it and
the worklist without it. `all` is the full unsorted set readiness is
judged against. -/
def pickReadyParameter (all : List NamedParameter) :
    List NamedParameter → Option (NamedParameter × List NamedParameter)
  | [] => none
  | p :: rest =>
    if parameterReady all p then some (p, rest)
    else
      match pickReadyParameter all rest with
      | some (q, rest') => some (q, p :: rest')
      | none => none

/-- The `CyclicParameterDependency` error, naming the parameters stuck
in the cycle. -/
structure CyclicParameterDependencyError where
  parameterNames : List String
deriving DecidableEq

/-- Kahn-style sorting loop: repeatedly emit a ready parameter; if none
is ready while parameters remain, the remaining parameters form a
dependency cycle and the sort aborts. The fuel starts at the parameter
count and bounds the recursion. -/
def sortParametersLoop : Nat → List NamedParameter →
    Except CyclicParameterDependencyError (List NamedParameter)
  | _, [] => .ok []
  | 0, remaining => .error ⟨remaining.map (fun p => p.name)⟩
  | fuel + 1, remaining =>
    match pickReadyParameter remaining remaining with
    | none => .error ⟨remaining.map (fun p => p.name)⟩
    | some (p, rest) => (sortParametersLoop fuel rest).map (fun sorted => p :: sorted)

/-- Modelled from the spec: topologically sort a config's own parameters
by their references; a cycle aborts with `CyclicParameterDependency`. -/
def sortParameters (params : List NamedParameter) :
    Except CyclicParameterDependencyError (List NamedParameter) :=
  sortParametersLoop params.length params

/-- A network call the deploy of one config performs. -/
inductive NetworkCall where
  | upsert (payload : String)
deriving DecidableEq

/-- The deploy-time error kinds relevant here. -/
inductive DeployError where
  | cyclicParameterDependency (e : CyclicParameterDependencyError)
deriving DecidableEq

/-- Modelled from the spec (§4.2 and the setting deploy pipeline): the
deploy of one configuration first topologically sorts the config's own
parameters; a cycle aborts with a `CyclicParameterDependency` error and
zero network calls, before template rendering or upsert. On success the
resolution and rendering collaborator produces the payload and one
upsert call is made. Returns the result and the network calls made. -/
def deployConfig (params : List NamedParameter)
    (resolveAndRender : List NamedParameter → String) :
    Except DeployError String × List NetworkCall :=
  match sortParameters params with
  | .error e => (.error (.cyclicParameterDependency e), [])
  | .ok sorted =>
    let payload := resolveAndRender sorted
    (.ok payload, [.upsert payload])

/-- A reference cycle among a config's parameters: a nonempty list of
names such that each position's parameter exists in `params` and
references the cyclically next position's name. -/
def IsRefCycle (params : List NamedParameter) (cyc : List String) : Prop :=
  cyc ≠ [] ∧
  ∀ i, ∀ h : i < cyc.length,
    ∃ p, p ∈ params ∧ p.name = cyc.get ⟨i, h⟩ ∧
      cyc.get ⟨(i + 1) % cyc.length,
               Nat.mod_lt _ (Nat.lt_of_le_of_lt (Nat.zero_le i) h)⟩ ∈ p.references

/-! # Theorems -/

/-! ## C5 — feature-flag evaluation -/

/-- C5: the claim as stated — that two evaluations of the graph-deploy
feature flag return the same value even if the flag's environment
variable changes between the evaluations — is false: `Enabled` re-reads
the variable at every evaluation, so an environment where
`MONACO_FEAT_GRAPH_DEPLOY` is "true" yields `true` while one where it is
unset yields the default `false`. -/
theorem featureFlagSnapshot_counterexample :
    ¬ (∀ env1 env2 : String → Option String,
        DependencyGraphBasedDeploy.Enabled env1 = DependencyGraphBasedDeploy.Enabled env2) := by
  intro h
  have h1 : DependencyGraphBasedDeploy.Enabled
      (fun n => if n = "MONACO_FEAT_GRAPH_DEPLOY" then some "true" else none) = true := by
    unfold FeatureFlag.Enabled DependencyGraphBasedDeploy
    simp
    rfl
  have h2 : DependencyGraphBasedDeploy.Enabled (fun _ => none) = false := by
    unfold FeatureFlag.Enabled DependencyGraphBasedDeploy
    simp
  have := h (fun n => if n = "MONACO_FEAT_GRAPH_DEPLOY" then some "true" else none)
    (fun _ => none)
  rw [h1, h2] at this
  exact Bool.noConfusion this

/-- C5 (amended): `FeatureFlag.Enabled` re-reads its environment
variable at every evaluation; its result is a pure function of that one
variable's current value, so two evaluations agree whenever the
variable is unchanged between them — but a mid-run change to the
variable can change the result (see the counterexample). -/
theorem featureFlagEnabled_deterministic (ff : FeatureFlag)
    (env1 env2 : String → Option String)
    (h : env1 ff.envName = env2 ff.envName) :
    ff.Enabled env1 = ff.Enabled env2 := by
  unfold FeatureFlag.Enabled
  rw [h]

/-- C5 witness: the graph-deploy flag evaluated under two environments
that agree on `MONACO_FEAT_GRAPH_DEPLOY` (while differing elsewhere)
returns the same value. -/
theorem featureFlagEnabled_deterministic_witness :
    DependencyGraphBasedDeploy.Enabled
        (fun n => if n = "SOME_OTHER_VAR" then some "true" else none) =
      DependencyGraphBasedDeploy.Enabled (fun _ => none) :=
  featureFlagEnabled_deterministic DependencyGraphBasedDeploy
    (fun n => if n = "SOME_OTHER_VAR" then some "true" else none)
    (fun _ => none) (by decide)

/-! ## C6 — manifest version validation -/

/-- C6: `validateManifestVersion` rejects (returns an error) exactly
when the version string is missing (empty), does not parse as a
version, is smaller than the minimum supported version, or is greater
than the maximum supported version; in all other cases validation
succeeds. -/
theorem validateManifestVersion_spec (minV maxV : Version) (s : String) :
    (∃ e, validateManifestVersion minV maxV s = some e) ↔
      (s = "" ∨ ParseVersion s = none ∨
        ∃ v, ParseVersion s = some v ∧
          (v.SmallerThan minV = true ∨ v.GreaterThan maxV = true)) := by
  unfold validateManifestVersion
  by_cases hlen : s.length = 0
  · have hs : s = "" := String.ext (by
      have := congrArg List.length (rfl : s.data = s.data)
      exact List.eq_nil_of_length_eq_zero hlen)
    subst hs
    simp
  · have hs : ¬ s = "" := fun h => hlen (by rw [h]; rfl)
    simp only [if_neg hlen]
    cases hp : ParseVersion s with
    | none => simp [hs]
    | some v =>
      by_cases hmin : v.SmallerThan minV = true
      · simp [hs, hmin, hp]
      · by_cases hmax : v.GreaterThan maxV = true
        · simp [hs, hp, hmin, hmax]
        · simp [hs, hp, hmin, hmax]

/-! ## C8 — manifest URL parsing -/

/-- C8: a blank `url.value` yields a load error, and every accepted URL
— literal, or resolved from an environment variable — is returned with
its trailing "/" trimmed (one trailing slash removed, as
`strings.TrimSuffix` does). -/
theorem parseURLDefinition_spec (envLookup : String → Option String)
    (dontResolve : Bool) (u : YamlURL) :
    (u.value = "" →
      parseURLDefinition envLookup dontResolve u =
        .error "no `Url` configured or value is blank") ∧
    ((u.urlType = "" ∨ u.urlType = urlTypeValue) → u.value ≠ "" →
      parseURLDefinition envLookup dontResolve u =
        .ok { urlType := .value, value := trimSuffix u.value "/", name := "" }) ∧
    (∀ v, u.urlType = urlTypeEnvironment → dontResolve = false →
      envLookup u.value = some v → v ≠ "" → u.value ≠ "" →
      parseURLDefinition envLookup dontResolve u =
        .ok { urlType := .environment, value := trimSuffix v "/", name := u.value }) := by
  refine ⟨fun hblank => ?_, fun htype hval => ?_, fun v htype hres hlook hv hval => ?_⟩
  · unfold parseURLDefinition
    rw [if_pos hblank]
  · unfold parseURLDefinition
    rw [if_neg hval, if_pos htype]
  · unfold parseURLDefinition
    have hne : ¬ (u.urlType = "" ∨ u.urlType = urlTypeValue) := by
      rw [htype]
      unfold urlTypeEnvironment urlTypeValue
      decide
    rw [if_neg hval, if_neg hne, if_pos htype, if_neg (by rw [hres]; exact Bool.false_ne_true),
      hlook]
    simp [hv]

/-- C8 witness: the three cases at concrete inputs — a blank value
errors; `"https://a.example.com/"` given literally is accepted as
`"https://a.example.com"`; `"https://b.example.com/"` resolved from the
variable `ENV_URL` is accepted as `"https://b.example.com"`. -/
theorem parseURLDefinition_spec_witness :
    parseURLDefinition (fun _ => none) false { urlType := "value", value := "" } =
      .error "no `Url` configured or value is blank" ∧
    parseURLDefinition (fun _ => none) false
        { urlType := "value", value := "https://a.example.com/" } =
      .ok { urlType := .value, value := "https://a.example.com", name := "" } ∧
    parseURLDefinition
        (fun n => if n = "ENV_URL" then some "https://b.example.com/" else none) false
        { urlType := "environment", value := "ENV_URL" } =
      .ok { urlType := .environment, value := "https://b.example.com", name := "ENV_URL" } := by
  refine ⟨?_, ?_, ?_⟩
  · exact (parseURLDefinition_spec (fun _ => none) false
      { urlType := "value", value := "" }).1 rfl
  · have h := (parseURLDefinition_spec (fun _ => none) false
      { urlType := "value", value := "https://a.example.com/" }).2.1
      (Or.inr rfl) (by decide)
    rw [h]
    rfl
  · have h := (parseURLDefinition_spec
      (fun n => if n = "ENV_URL" then some "https://b.example.com/" else none) false
      { urlType := "environment", value := "ENV_URL" }).2.2
      "https://b.example.com/" rfl rfl (by decide) (by decide) (by decide)
    rw [h]
    rfl

/-! ## C9 — LoadProjects is all-or-nothing -/

theorem loadProjectsStep_errors_mono
    (loadProjectFn : ProjectDefinition → Except (List ProjectError) Project)
    (defs : List ProjectDefinition) (acc : List Project × List ProjectError)
    (e : ProjectError) (he : e ∈ acc.2) :
    e ∈ (defs.foldl (loadProjectsStep loadProjectFn) acc).2 := by
  induction defs generalizing acc with
  | nil => exact he
  | cons pd rest ih =>
    simp only [List.foldl_cons]
    apply ih
    unfold loadProjectsStep
    cases loadProjectFn pd with
    | error es => exact List.mem_append_left es he
    | ok p => exact he

theorem loadProjectsFold_errors_of_failure
    (loadProjectFn : ProjectDefinition → Except (List ProjectError) Project)
    (defs : List ProjectDefinition) (acc : List Project × List ProjectError)
    (pd : ProjectDefinition) (hpd : pd ∈ defs) (es : List ProjectError)
    (hes : loadProjectFn pd = .error es) (e : ProjectError) (he : e ∈ es) :
    e ∈ (defs.foldl (loadProjectsStep loadProjectFn) acc).2 := by
  induction defs generalizing acc with
  | nil => cases hpd
  | cons q rest ih =>
    simp only [List.foldl_cons]
    rcases List.mem_cons.mp hpd with heq | htail
    · subst heq
      apply loadProjectsStep_errors_mono
      unfold loadProjectsStep
      rw [hes]
      exact List.mem_append_right acc.2 he
    · exact ih _ htail

/-- C9: `LoadProjects` is all-or-nothing — if loading any manifest
project produces errors, the call returns `nil` (here `none`) in place
of the project list, together with errors that include every error of
the failing project; a partially loaded project set is never returned. -/
theorem loadProjects_allOrNothing (projectDefs : List ProjectDefinition)
    (loadProjectFn : ProjectDefinition → Except (List ProjectError) Project)
    (pd : ProjectDefinition) (hpd : pd ∈ projectDefs)
    (es : List ProjectError) (hes : loadProjectFn pd = .error es) (hne : es ≠ []) :
    (LoadProjects projectDefs loadProjectFn).1 = none ∧
      ∀ e ∈ es, e ∈ (LoadProjects projectDefs loadProjectFn).2 := by
  obtain ⟨e0, he0⟩ := List.exists_mem_of_ne_nil es hne
  have hmem : ∀ e ∈ es,
      e ∈ (projectDefs.foldl (loadProjectsStep loadProjectFn) ([], [])).2 :=
    fun e he => loadProjectsFold_errors_of_failure loadProjectFn projectDefs
      ([], []) pd hpd es hes e he
  have hnonempty : (projectDefs.foldl (loadProjectsStep loadProjectFn) ([], [])).2 ≠ [] :=
    List.ne_nil_of_mem (hmem e0 he0)
  unfold LoadProjects
  rw [if_neg hnonempty]
  exact ⟨rfl, hmem⟩

/-- C9 witness: one project of two fails to load; the returned project
list is `none` and the failing project's error is among the returned
errors. -/
theorem loadProjects_allOrNothing_witness :
    (LoadProjects
        [{ name := "p1", group := "", path := "p1" },
         { name := "p2", group := "", path := "p2" }]
        (fun pd => if pd.name = "p2" then .error [.configError "bad yaml"] else
          .ok { id := pd.name, groupId := "", configs := [], dependencies := [] })).1 = none ∧
      ∀ e ∈ [ProjectError.configError "bad yaml"],
        e ∈ (LoadProjects
          [{ name := "p1", group := "", path := "p1" },
           { name := "p2", group := "", path := "p2" }]
          (fun pd => if pd.name = "p2" then .error [.configError "bad yaml"] else
            .ok { id := pd.name, groupId := "", configs := [], dependencies := [] })).2 :=
  loadProjects_allOrNothing
    [{ name := "p1", group := "", path := "p1" },
     { name := "p2", group := "", path := "p2" }]
    (fun pd => if pd.name = "p2" then .error [.configError "bad yaml"] else
      .ok { id := pd.name, groupId := "", configs := [], dependencies := [] })
    { name := "p2", group := "", path := "p2" } (by decide)
    [.configError "bad yaml"] rfl (by decide)

/-! ## C10 — requested groups/environments that match nothing -/

theorem memStr_iff (l : List String) (s : String) :
    memStr l s = true ↔ s ∈ l := by
  unfold memStr
  simp [List.any_eq_true]

theorem stepEnvironment_groupNames (ctx : LoaderContext)
    (envLookup : String → Option String) (groupName : String) (j : Nat)
    (st : EnvLoopState) (env : YamlEnvironment) :
    (stepEnvironment ctx envLookup groupName j st env).groupNames = st.groupNames := by
  unfold stepEnvironment
  repeat' split
  all_goals rfl

theorem processEnvironments_groupNames (ctx : LoaderContext)
    (envLookup : String → Option String) (groupName : String) (j : Nat)
    (st : EnvLoopState) (envs : List YamlEnvironment) :
    (processEnvironments ctx envLookup groupName j st envs).groupNames = st.groupNames := by
  induction envs generalizing j st with
  | nil => rfl
  | cons env rest ih =>
    unfold processEnvironments
    rw [ih, stepEnvironment_groupNames]

theorem stepGroup_groupNames (ctx : LoaderContext)
    (envLookup : String → Option String) (i : Nat) (st : EnvLoopState) (g : YamlGroup) :
    (stepGroup ctx envLookup i st g).groupNames = st.groupNames ++ [g.name] := by
  unfold stepGroup
  rw [processEnvironments_groupNames]
  repeat' split
  all_goals rfl

theorem processGroups_groupNames (ctx : LoaderContext)
    (envLookup : String → Option String) (i : Nat) (st : EnvLoopState)
    (groups : List YamlGroup) :
    (processGroups ctx envLookup i st groups).groupNames =
      st.groupNames ++ groups.map (fun g => g.name) := by
  induction groups generalizing i st with
  | nil => simp [processGroups]
  | cons g rest ih =>
    unfold processGroups
    rw [ih, stepGroup_groupNames]
    simp

theorem stepEnvironment_envNames (ctx : LoaderContext)
    (envLookup : String → Option String) (groupName : String) (j : Nat)
    (st : EnvLoopState) (env : YamlEnvironment) (n : String)
    (hn : n ∈ (stepEnvironment ctx envLookup groupName j st env).envNames) :
    n ∈ st.envNames ∨ n = env.name := by
  unfold stepEnvironment at hn
  repeat' split at hn
  all_goals
    first
    | exact Or.inl hn
    | (rcases List.mem_append.mp hn with h | h
       · exact Or.inl h
       · exact Or.inr (List.mem_singleton.mp h))

theorem processEnvironments_envNames (ctx : LoaderContext)
    (envLookup : String → Option String) (groupName : String) (j : Nat)
    (st : EnvLoopState) (envs : List YamlEnvironment) (n : String)
    (hn : n ∈ (processEnvironments ctx envLookup groupName j st envs).envNames) :
    n ∈ st.envNames ∨ ∃ env ∈ envs, env.name = n := by
  induction envs generalizing j st with
  | nil => exact Or.inl hn
  | cons env rest ih =>
    unfold processEnvironments at hn
    rcases ih _ _ hn with hin | ⟨e, he, hname⟩
    · rcases stepEnvironment_envNames ctx envLookup groupName j st env n hin with h | h
      · exact Or.inl h
      · exact Or.inr ⟨env, List.mem_cons_self env rest, h.symm⟩
    · exact Or.inr ⟨e, List.mem_cons_of_mem env he, hname⟩

theorem stepGroup_envNames (ctx : LoaderContext)
    (envLookup : String → Option String) (i : Nat) (st : EnvLoopState)
    (g : YamlGroup) (n : String)
    (hn : n ∈ (stepGroup ctx envLookup i st g).envNames) :
    n ∈ st.envNames ∨ ∃ env ∈ g.environments, env.name = n := by
  unfold stepGroup at hn
  rcases processEnvironments_envNames ctx envLookup g.name 0 _ g.environments n hn with
    h | h
  · left
    revert h
    repeat' split
    all_goals exact fun h => h
  · exact Or.inr h

theorem processGroups_envNames (ctx : LoaderContext)
    (envLookup : String → Option String) (i : Nat) (st : EnvLoopState)
    (groups : List YamlGroup) (n : String)
    (hn : n ∈ (processGroups ctx envLookup i st groups).envNames) :
    n ∈ st.envNames ∨ ∃ g ∈ groups, ∃ env ∈ g.environments, env.name = n := by
  induction groups generalizing i st with
  | nil => exact Or.inl hn
  | cons g rest ih =>
    unfold processGroups at hn
    rcases ih _ _ hn with hin | ⟨g', hg', hrest⟩
    · rcases stepGroup_envNames ctx envLookup i st g n hin with h | h
      · exact Or.inl h
      · exact Or.inr ⟨g, List.mem_cons_self g rest, h⟩
    · exact Or.inr ⟨g', List.mem_cons_of_mem g hg', hrest⟩

/-- C10: every requested group or environment filter name that matches
no group/environment defined in the manifest produces its own
"requested group/environment not found" error, and `toEnvironments`
fails (returns a `nil` environment map) instead of silently loading an
empty or partial environment set. -/
theorem toEnvironments_missing_filters (ctx : LoaderContext)
    (envLookup : String → Option String) (groups : List YamlGroup) :
    (∀ g ∈ ctx.groups, (∀ grp ∈ groups, grp.name ≠ g) →
      ManifestError.loader ctx.manifestPath ("requested group \"" ++ g ++ "\" not found")
          ∈ (toEnvironments ctx envLookup groups).2 ∧
        (toEnvironments ctx envLookup groups).1 = none) ∧
    (∀ e ∈ ctx.environments, (∀ grp ∈ groups, ∀ env ∈ grp.environments, env.name ≠ e) →
      ManifestError.loader ctx.manifestPath ("requested environment \"" ++ e ++ "\" not found")
          ∈ (toEnvironments ctx envLookup groups).2 ∧
        (toEnvironments ctx envLookup groups).1 = none) := by
  constructor
  · intro g hg hnone
    have hnotmem : memStr (processGroups ctx envLookup 0 ⟨[], [], [], []⟩ groups).groupNames g
        = false := by
      rw [Bool.eq_false_iff]
      intro habs
      have := (memStr_iff _ g).mp habs
      rw [processGroups_groupNames] at this
      simp only [List.nil_append, List.mem_map] at this
      obtain ⟨grp, hgrp, hname⟩ := this
      exact hnone grp hgrp hname
    have hinmap : ManifestError.loader ctx.manifestPath
        ("requested group \"" ++ g ++ "\" not found") ∈
        ((ctx.groups.filter
          (fun g => !(memStr (processGroups ctx envLookup 0 ⟨[], [], [], []⟩ groups).groupNames g))).map
          (fun g => ManifestError.loader ctx.manifestPath
            ("requested group \"" ++ g ++ "\" not found"))) := by
      apply List.mem_map_of_mem
      rw [List.mem_filter]
      exact ⟨hg, by rw [hnotmem]; rfl⟩
    unfold toEnvironments
    have hmem2 : ManifestError.loader ctx.manifestPath
        ("requested group \"" ++ g ++ "\" not found") ∈
        ((processGroups ctx envLookup 0 ⟨[], [], [], []⟩ groups).errors ++
          (ctx.groups.filter
            (fun g => !(memStr (processGroups ctx envLookup 0 ⟨[], [], [], []⟩ groups).groupNames g))).map
            (fun g => ManifestError.loader ctx.manifestPath
              ("requested group \"" ++ g ++ "\" not found")) ++
          (ctx.environments.filter
            (fun e => !(memStr (processGroups ctx envLookup 0 ⟨[], [], [], []⟩ groups).envNames e))).map
            (fun e => ManifestError.loader ctx.manifestPath
              ("requested environment \"" ++ e ++ "\" not found"))) := by
      exact List.mem_append_left _ (List.mem_append_right _ hinmap)
    rw [if_neg (List.ne_nil_of_mem hmem2)]
    exact ⟨hmem2, rfl⟩
  · intro e he hnone
    have hnotmem : memStr (processGroups ctx envLookup 0 ⟨[], [], [], []⟩ groups).envNames e
        = false := by
      rw [Bool.eq_false_iff]
      intro habs
      have := (memStr_iff _ e).mp habs
      rcases processGroups_envNames ctx envLookup 0 ⟨[], [], [], []⟩ groups e this with
        hnil | ⟨grp, hgrp, env, henv, hname⟩
      · cases hnil
      · exact hnone grp hgrp env henv hname
    have hinmap : ManifestError.loader ctx.manifestPath
        ("requested environment \"" ++ e ++ "\" not found") ∈
        ((ctx.environments.filter
          (fun e => !(memStr (processGroups ctx envLookup 0 ⟨[], [], [], []⟩ groups).envNames e))).map
          (fun e => ManifestError.loader ctx.manifestPath
            ("requested environment \"" ++ e ++ "\" not found"))) := by
      apply List.mem_map_of_mem
      rw [List.mem_filter]
      exact ⟨he, by rw [hnotmem]; rfl⟩
    unfold toEnvironments
    have hmem2 : ManifestError.loader ctx.manifestPath
        ("requested environment \"" ++ e ++ "\" not found") ∈
        ((processGroups ctx envLookup 0 ⟨[], [], [], []⟩ groups).errors ++
          (ctx.groups.filter
            (fun g => !(memStr (processGroups ctx envLookup 0 ⟨[], [], [], []⟩ groups).groupNames g))).map
            (fun g => ManifestError.loader ctx.manifestPath
              ("requested group \"" ++ g ++ "\" not found")) ++
          (ctx.environments.filter
            (fun e => !(memStr (processGroups ctx envLookup 0 ⟨[], [], [], []⟩ groups).envNames e))).map
            (fun e => ManifestError.loader ctx.manifestPath
              ("requested environment \"" ++ e ++ "\" not found"))) := by
      exact List.mem_append_right _ hinmap
    rw [if_neg (List.ne_nil_of_mem hmem2)]
    exact ⟨hmem2, rfl⟩

/-! ## C7 — duplicate configuration identifiers fail the project load -/

theorem findDuplicatesLoop_mem_of_seen (d : Config) (configs : List Config)
    (seen : List String) (hseen : toFullyQualifiedConfigIdentifier d ∈ seen)
    (hd : d ∈ configs) : d ∈ findDuplicatesLoop seen configs := by
  induction configs generalizing seen with
  | nil => cases hd
  | cons c rest ih =>
    unfold findDuplicatesLoop
    rcases List.mem_cons.mp hd with heq | htail
    · subst heq
      rw [if_pos ((memStr_iff seen _).mpr hseen)]
      exact List.mem_cons_self _ _
    · have hrec : d ∈ findDuplicatesLoop (toFullyQualifiedConfigIdentifier c :: seen) rest :=
        ih _ (List.mem_cons_of_mem _ hseen) htail
      split
      · exact List.mem_cons_of_mem c hrec
      · exact hrec

theorem findDuplicatesLoop_second_occurrence (a d : Config)
    (l₁ l₂ : List Config) (seen : List String) (hd : d ∈ l₂)
    (heq : toFullyQualifiedConfigIdentifier d = toFullyQualifiedConfigIdentifier a) :
    d ∈ findDuplicatesLoop seen (l₁ ++ a :: l₂) := by
  induction l₁ generalizing seen with
  | nil =>
    unfold findDuplicatesLoop
    have hrec : d ∈ findDuplicatesLoop (toFullyQualifiedConfigIdentifier a :: seen) l₂ :=
      findDuplicatesLoop_mem_of_seen d l₂ _ (by rw [heq]; exact List.mem_cons_self _ _) hd
    simp only [List.nil_append]
    split
    · exact List.mem_cons_of_mem a hrec
    · exact hrec
  | cons h l₁' ih =>
    simp only [List.cons_append]
    unfold findDuplicatesLoop
    split
    · exact List.mem_cons_of_mem h (ih _)
    · exact ih _

theorem filter_two_split {α : Type} (p : α → Bool) (l : List α)
    (hlen : 2 ≤ (l.filter p).length) :
    ∃ l₁ a l₂, l = l₁ ++ a :: l₂ ∧ p a = true ∧ ∃ d ∈ l₂, p d = true := by
  induction l with
  | nil => simp at hlen
  | cons x rest ih =>
    by_cases hx : p x = true
    · refine ⟨[], x, rest, by simp, hx, ?_⟩
      have h1 : 1 ≤ (rest.filter p).length := by
        rw [List.filter_cons_of_pos hx] at hlen
        simpa using Nat.le_of_succ_le_succ hlen
      obtain ⟨d, hdmem⟩ := List.exists_mem_of_ne_nil (rest.filter p)
        (by intro hnil; rw [hnil] at h1; simp at h1)
      exact ⟨d, (List.mem_filter.mp hdmem).1, (List.mem_filter.mp hdmem).2⟩
    · rw [List.filter_cons_of_neg (by simpa using hx)] at hlen
      obtain ⟨l₁, a, l₂, hsplit, hpa, hwit⟩ := ih hlen
      exact ⟨x :: l₁, a, l₂, by rw [hsplit]; rfl, hpa, hwit⟩

/-- C7: every configuration whose fully qualified identifier
`(Group, Environment, Coordinate)` occurs more than once in the loaded
configs makes `loadProject` fail (no `Project` value is returned), and
the error list carries a `DuplicateConfigIdentifierError` with exactly
that coordinate and those environment details. -/
theorem loadProject_duplicate_identifiers (pd : ProjectDefinition)
    (loadErrs : List ProjectError) (configs : List Config) (c : Config)
    (_hc : c ∈ configs)
    (hdup : 2 ≤ (configs.filter (fun x =>
      x.group = c.group ∧ x.environment = c.environment ∧
        x.coordinate = c.coordinate)).length) :
    ∃ errs, loadProject true pd configs loadErrs = .error errs ∧
      ProjectError.duplicate
        { location := c.coordinate,
          environmentDetails := { group := c.group, environment := c.environment } }
        ∈ errs := by
  obtain ⟨l₁, a, l₂, hsplit, hpa, d, hdmem, hpd⟩ := filter_two_split _ configs hdup
  have hta : a.group = c.group ∧ a.environment = c.environment ∧ a.coordinate = c.coordinate := by
    simpa using hpa
  have htd : d.group = c.group ∧ d.environment = c.environment ∧ d.coordinate = c.coordinate := by
    simpa using hpd
  have hfq : toFullyQualifiedConfigIdentifier d = toFullyQualifiedConfigIdentifier a := by
    unfold toFullyQualifiedConfigIdentifier Coordinate.asString
    rw [hta.1, hta.2.1, hta.2.2, htd.1, htd.2.1, htd.2.2]
  have hdout : d ∈ findDuplicatedConfigIdentifiers configs := by
    rw [hsplit]
    exact findDuplicatesLoop_second_occurrence a d l₁ l₂ [] hdmem hfq
  have herr : ProjectError.duplicate
      { location := c.coordinate,
        environmentDetails := { group := c.group, environment := c.environment } }
      ∈ loadErrs ++ (findDuplicatedConfigIdentifiers configs).map
        (fun x => ProjectError.duplicate (newDuplicateConfigIdentifierError x)) := by
    apply List.mem_append_right
    have : ProjectError.duplicate (newDuplicateConfigIdentifierError d) =
        ProjectError.duplicate
          { location := c.coordinate,
            environmentDetails := { group := c.group, environment := c.environment } } := by
      unfold newDuplicateConfigIdentifierError
      rw [htd.1, htd.2.1, htd.2.2]
    rw [← this]
    exact List.mem_map_of_mem _ hdout
  refine ⟨loadErrs ++ (findDuplicatedConfigIdentifiers configs).map
    (fun x => ProjectError.duplicate (newDuplicateConfigIdentifierError x)), ?_, herr⟩
  unfold loadProject
  rw [if_neg (by simp)]
  exact if_neg (List.ne_nil_of_mem herr)

/-- C7 witness: two configurations sharing
`(group, environment, coordinate)` make the project load fail with a
`DuplicateConfigIdentifierError` carrying that coordinate and those
environment details. -/
theorem loadProject_duplicate_identifiers_witness :
    ∃ errs, loadProject true { name := "p", group := "", path := "p" }
        [{ coordinate := { project := "p", ctype := "alerting-profile", configId := "c1" },
           group := "g", environment := "e", skip := false,
           ctype := .classicApi "alerting-profile", references := [] },
         { coordinate := { project := "p", ctype := "alerting-profile", configId := "c1" },
           group := "g", environment := "e", skip := false,
           ctype := .classicApi "alerting-profile", references := [] }] [] = .error errs ∧
      ProjectError.duplicate
        { location := { project := "p", ctype := "alerting-profile", configId := "c1" },
          environmentDetails := { group := "g", environment := "e" } }
        ∈ errs :=
  loadProject_duplicate_identifiers { name := "p", group := "", path := "p" } []
    [{ coordinate := { project := "p", ctype := "alerting-profile", configId := "c1" },
       group := "g", environment := "e", skip := false,
       ctype := .classicApi "alerting-profile", references := [] },
     { coordinate := { project := "p", ctype := "alerting-profile", configId := "c1" },
       group := "g", environment := "e", skip := false,
       ctype := .classicApi "alerting-profile", references := [] }]
    { coordinate := { project := "p", ctype := "alerting-profile", configId := "c1" },
      group := "g", environment := "e", skip := false,
      ctype := .classicApi "alerting-profile", references := [] }
    (by decide) (by decide)


/-! ## C3 — platform-exclusive configurations on non-platform environments -/

theorem checkConfigsForEnvironment_none_iff (env : EnvironmentDefinition)
    (cfgs : List Config) :
    checkConfigsForEnvironment env cfgs = none ↔
      ∀ c ∈ cfgs,
        (!c.skip && onlyAvailableOnPlatform c && !platformEnvironment env) = false := by
  unfold checkConfigsForEnvironment
  rw [Option.map_eq_none']
  rw [List.find?_eq_none]
  constructor
  · intro h c hc
    exact Bool.eq_false_iff.mpr (h c hc)
  · intro h c hc
    exact Bool.eq_false_iff.mp (h c hc)

theorem checkConfigsForEnvironment_some (env : EnvironmentDefinition)
    (cfgs : List Config) (e : DeployCheckError)
    (h : checkConfigsForEnvironment env cfgs = some e) :
    ∃ c ∈ cfgs, c.skip = false ∧ onlyAvailableOnPlatform c = true ∧
      platformEnvironment env = false ∧
      e = .notPlatform env.name c.coordinate := by
  unfold checkConfigsForEnvironment at h
  rw [Option.map_eq_some'] at h
  obtain ⟨c, hfind, he⟩ := h
  have hmem := List.mem_of_find?_eq_some hfind
  have hp := List.find?_some hfind
  simp only [Bool.and_eq_true, Bool.not_eq_true'] at hp
  exact ⟨c, hmem, hp.1.1, hp.1.2, hp.2, he.symm⟩

theorem checkConfigLists_cons_some (env : EnvironmentDefinition)
    (tc : String × List Config) (rest : List (String × List Config))
    (e : DeployCheckError) (h : checkConfigsForEnvironment env tc.2 = some e) :
    checkConfigLists env (tc :: rest) = some e := by
  conv_lhs => unfold checkConfigLists
  simp only [h]

theorem checkConfigLists_cons_none (env : EnvironmentDefinition)
    (tc : String × List Config) (rest : List (String × List Config))
    (h : checkConfigsForEnvironment env tc.2 = none) :
    checkConfigLists env (tc :: rest) = checkConfigLists env rest := by
  conv_lhs => unfold checkConfigLists
  simp only [h]

theorem checkConfigLists_none_iff (env : EnvironmentDefinition)
    (lst : List (String × List Config)) :
    checkConfigLists env lst = none ↔
      ∀ tc ∈ lst, checkConfigsForEnvironment env tc.2 = none := by
  induction lst with
  | nil => simp [checkConfigLists]
  | cons tc rest ih =>
    cases htc : checkConfigsForEnvironment env tc.2 with
    | some e =>
      rw [checkConfigLists_cons_some env tc rest e htc]
      constructor
      · intro h; cases h
      · intro h
        exfalso
        have := h tc (List.mem_cons_self _ _)
        rw [htc] at this
        cases this
    | none =>
      rw [checkConfigLists_cons_none env tc rest htc, ih]
      constructor
      · intro h tc' htc'
        rcases List.mem_cons.mp htc' with heq | htail
        · subst heq; exact htc
        · exact h tc' htail
      · intro h tc' htc'
        exact h tc' (List.mem_cons_of_mem _ htc')

theorem checkConfigLists_some (env : EnvironmentDefinition)
    (lst : List (String × List Config)) (e : DeployCheckError)
    (h : checkConfigLists env lst = some e) :
    ∃ tc ∈ lst, checkConfigsForEnvironment env tc.2 = some e := by
  induction lst with
  | nil => cases h
  | cons tc rest ih =>
    cases htc : checkConfigsForEnvironment env tc.2 with
    | some e' =>
      rw [checkConfigLists_cons_some env tc rest e' htc] at h
      cases h
      exact ⟨tc, List.mem_cons_self _ _, htc⟩
    | none =>
      rw [checkConfigLists_cons_none env tc rest htc] at h
      obtain ⟨tc', htc', hsome⟩ := ih h
      exact ⟨tc', List.mem_cons_of_mem _ htc', hsome⟩

theorem checkProjectConfigs_cons_notFound (envs : List (String × EnvironmentDefinition))
    (ec : String × List (String × List Config))
    (rest : List (String × List (String × List Config)))
    (h : assocLookup envs ec.1 = none) :
    checkProjectConfigs envs (ec :: rest) = some (.envNotFound ec.1) := by
  conv_lhs => unfold checkProjectConfigs
  simp only [h]

theorem checkProjectConfigs_cons_some (envs : List (String × EnvironmentDefinition))
    (ec : String × List (String × List Config))
    (rest : List (String × List (String × List Config)))
    (env : EnvironmentDefinition) (e : DeployCheckError)
    (hl : assocLookup envs ec.1 = some env) (hc : checkConfigLists env ec.2 = some e) :
    checkProjectConfigs envs (ec :: rest) = some e := by
  conv_lhs => unfold checkProjectConfigs
  simp only [hl, hc]

theorem checkProjectConfigs_cons_none (envs : List (String × EnvironmentDefinition))
    (ec : String × List (String × List Config))
    (rest : List (String × List (String × List Config)))
    (env : EnvironmentDefinition)
    (hl : assocLookup envs ec.1 = some env) (hc : checkConfigLists env ec.2 = none) :
    checkProjectConfigs envs (ec :: rest) = checkProjectConfigs envs rest := by
  conv_lhs => unfold checkProjectConfigs
  simp only [hl, hc]

theorem checkProjectConfigs_none_iff (envs : List (String × EnvironmentDefinition))
    (lst : List (String × List (String × List Config))) :
    checkProjectConfigs envs lst = none ↔
      ∀ ec ∈ lst, ∃ env, assocLookup envs ec.1 = some env ∧
        checkConfigLists env ec.2 = none := by
  induction lst with
  | nil => simp [checkProjectConfigs]
  | cons ec rest ih =>
    cases hl : assocLookup envs ec.1 with
    | none =>
      rw [checkProjectConfigs_cons_notFound envs ec rest hl]
      constructor
      · intro h; cases h
      · intro h
        exfalso
        obtain ⟨env, henv, _⟩ := h ec (List.mem_cons_self _ _)
        rw [hl] at henv
        cases henv
    | some env =>
      cases hc : checkConfigLists env ec.2 with
      | some e =>
        rw [checkProjectConfigs_cons_some envs ec rest env e hl hc]
        constructor
        · intro h; cases h
        · intro h
          exfalso
          obtain ⟨env', henv', hcl⟩ := h ec (List.mem_cons_self _ _)
          rw [hl] at henv'
          cases henv'
          rw [hc] at hcl
          cases hcl
      | none =>
        rw [checkProjectConfigs_cons_none envs ec rest env hl hc, ih]
        constructor
        · intro h ec' hec'
          rcases List.mem_cons.mp hec' with heq | htail
          · subst heq; exact ⟨env, hl, hc⟩
          · exact h ec' htail
        · intro h ec' hec'
          exact h ec' (List.mem_cons_of_mem _ hec')

theorem checkProjectConfigs_some (envs : List (String × EnvironmentDefinition))
    (lst : List (String × List (String × List Config))) (e : DeployCheckError)
    (hall : ∀ ec ∈ lst, ∃ env, assocLookup envs ec.1 = some env)
    (h : checkProjectConfigs envs lst = some e) :
    ∃ ec ∈ lst, ∃ env, assocLookup envs ec.1 = some env ∧
      checkConfigLists env ec.2 = some e := by
  induction lst with
  | nil => cases h
  | cons ec rest ih =>
    obtain ⟨env, henv⟩ := hall ec (List.mem_cons_self _ _)
    cases hc : checkConfigLists env ec.2 with
    | some e' =>
      rw [checkProjectConfigs_cons_some envs ec rest env e' henv hc] at h
      cases h
      exact ⟨ec, List.mem_cons_self _ _, env, henv, hc⟩
    | none =>
      rw [checkProjectConfigs_cons_none envs ec rest env henv hc] at h
      obtain ⟨ec', hec', env', henv', hcl⟩ :=
        ih (fun x hx => hall x (List.mem_cons_of_mem _ hx)) h
      exact ⟨ec', List.mem_cons_of_mem _ hec', env', henv', hcl⟩

theorem checkEnvironments_cons_some (p : Project) (rest : List Project)
    (envs : List (String × EnvironmentDefinition)) (e : DeployCheckError)
    (h : checkProjectConfigs envs p.configs = some e) :
    checkEnvironments (p :: rest) envs = some e := by
  conv_lhs => unfold checkEnvironments
  simp only [h]

theorem checkEnvironments_cons_none (p : Project) (rest : List Project)
    (envs : List (String × EnvironmentDefinition))
    (h : checkProjectConfigs envs p.configs = none) :
    checkEnvironments (p :: rest) envs = checkEnvironments rest envs := by
  conv_lhs => unfold checkEnvironments
  simp only [h]

theorem checkEnvironments_none_iff (projects : List Project)
    (envs : List (String × EnvironmentDefinition)) :
    checkEnvironments projects envs = none ↔
      ∀ p ∈ projects, checkProjectConfigs envs p.configs = none := by
  induction projects with
  | nil => simp [checkEnvironments]
  | cons p rest ih =>
    cases hp : checkProjectConfigs envs p.configs with
    | some e =>
      rw [checkEnvironments_cons_some p rest envs e hp]
      constructor
      · intro h; cases h
      · intro h
        exfalso
        have := h p (List.mem_cons_self _ _)
        rw [hp] at this
        cases this
    | none =>
      rw [checkEnvironments_cons_none p rest envs hp, ih]
      constructor
      · intro h p' hp'
        rcases List.mem_cons.mp hp' with heq | htail
        · subst heq; exact hp
        · exact h p' htail
      · intro h p' hp'
        exact h p' (List.mem_cons_of_mem _ hp')

theorem checkEnvironments_some (projects : List Project)
    (envs : List (String × EnvironmentDefinition)) (e : DeployCheckError)
    (h : checkEnvironments projects envs = some e) :
    ∃ p ∈ projects, checkProjectConfigs envs p.configs = some e := by
  induction projects with
  | nil => cases h
  | cons p rest ih =>
    cases hp : checkProjectConfigs envs p.configs with
    | some e' =>
      rw [checkEnvironments_cons_some p rest envs e' hp] at h
      cases h
      exact ⟨p, List.mem_cons_self _ _, hp⟩
    | none =>
      rw [checkEnvironments_cons_none p rest envs hp] at h
      obtain ⟨p', hp', hsome⟩ := ih h
      exact ⟨p', List.mem_cons_of_mem _ hp', hsome⟩

/-- C3 (amended): for a loaded and filtered project set whose config
environments all resolve in the manifest, if any configuration of
Automation or Bucket type that is *not marked skip* is assigned to an
environment lacking OAuth credentials, then `checkEnvironments` returns
an error naming a violating environment and the coordinate of a
non-skipped platform-exclusive configuration assigned to it, and the
deploy command's validation gate rejects the run before any deployment
is attempted. -/
theorem checkEnvironments_rejects_platform_only (projects : List Project)
    (envs : List (String × EnvironmentDefinition))
    (hall : ∀ p ∈ projects, ∀ ec ∈ p.configs, ∃ env, assocLookup envs ec.1 = some env)
    (p : Project) (hp : p ∈ projects)
    (ec : String × List (String × List Config)) (hec : ec ∈ p.configs)
    (env : EnvironmentDefinition) (henv : assocLookup envs ec.1 = some env)
    (hnp : platformEnvironment env = false)
    (tc : String × List Config) (htc : tc ∈ ec.2)
    (cfg : Config) (hcfg : cfg ∈ tc.2)
    (hskip : cfg.skip = false) (hplat : onlyAvailableOnPlatform cfg = true) :
    ∃ e, checkEnvironments projects envs = some e ∧
      (∃ p' ∈ projects, ∃ ec' ∈ p'.configs, ∃ env',
        assocLookup envs ec'.1 = some env' ∧ platformEnvironment env' = false ∧
        ∃ tc' ∈ ec'.2, ∃ c' ∈ tc'.2, c'.skip = false ∧
          onlyAvailableOnPlatform c' = true ∧
          e = DeployCheckError.notPlatform env'.name c'.coordinate) ∧
      ∀ runDeploy, deployConfigsValidated projects envs runDeploy = .error e := by
  have hnotnone : checkEnvironments projects envs ≠ none := by
    intro hnone
    have h1 := (checkEnvironments_none_iff projects envs).mp hnone p hp
    obtain ⟨env', henv', hcl⟩ := (checkProjectConfigs_none_iff envs p.configs).mp h1 ec hec
    rw [henv] at henv'
    cases henv'
    have h2 := (checkConfigLists_none_iff env ec.2).mp hcl tc htc
    have h3 := (checkConfigsForEnvironment_none_iff env tc.2).mp h2 cfg hcfg
    rw [hskip, hplat, hnp] at h3
    cases h3
  cases hres : checkEnvironments projects envs with
  | none => exact absurd hres hnotnone
  | some e =>
    obtain ⟨p', hp', hpc⟩ := checkEnvironments_some projects envs e hres
    obtain ⟨ec', hec', env', henv', hcl⟩ :=
      checkProjectConfigs_some envs p'.configs e (hall p' hp') hpc
    obtain ⟨tc', htc', hcfe⟩ := checkConfigLists_some env' ec'.2 e hcl
    obtain ⟨c', hc', hskip', hplat', hnp', hshape⟩ :=
      checkConfigsForEnvironment_some env' tc'.2 e hcfe
    refine ⟨e, rfl, ⟨p', hp', ec', hec', env', henv', hnp', tc', htc', c', hc',
      hskip', hplat', hshape⟩, ?_⟩
    intro runDeploy
    unfold deployConfigsValidated
    rw [hres]

/-- C3 witness: one non-skipped automation configuration assigned to an
environment whose manifest definition has only a token (no OAuth) makes
`checkEnvironments` return a `notPlatform` error and the validation gate
reject the run before deploying. -/
theorem checkEnvironments_rejects_platform_only_witness :
    ∃ e, checkEnvironments [exampleAutomationProject false] exampleTokenEnvs = some e ∧
      (∃ p' ∈ [exampleAutomationProject false], ∃ ec' ∈ p'.configs, ∃ env',
        assocLookup exampleTokenEnvs ec'.1 = some env' ∧
        platformEnvironment env' = false ∧
        ∃ tc' ∈ ec'.2, ∃ c' ∈ tc'.2, c'.skip = false ∧
          onlyAvailableOnPlatform c' = true ∧
          e = DeployCheckError.notPlatform env'.name c'.coordinate) ∧
      ∀ runDeploy, deployConfigsValidated [exampleAutomationProject false]
        exampleTokenEnvs runDeploy = .error e :=
  checkEnvironments_rejects_platform_only [exampleAutomationProject false]
    exampleTokenEnvs
    (by
      intro p hp ec hec
      rw [List.mem_singleton] at hp
      subst hp
      rw [show (exampleAutomationProject false).configs =
        [("env1",
          [("workflow",
            [{ coordinate := { project := "p", ctype := "workflow", configId := "wf1" },
               group := "default", environment := "env1", skip := false,
               ctype := .automation "workflow", references := [] }])])] from rfl,
        List.mem_singleton] at hec
      subst hec
      exact ⟨_, rfl⟩)
    (exampleAutomationProject false) (List.mem_singleton.mpr rfl)
    ("env1",
      [("workflow",
        [{ coordinate := { project := "p", ctype := "workflow", configId := "wf1" },
           group := "default", environment := "env1", skip := false,
           ctype := .automation "workflow", references := [] }])])
    (List.mem_singleton.mpr rfl)
    { name := "env1",
      url := { urlType := .value, value := "https://a.example.com", name := "" },
      auth := { token := { name := "TOKEN", value := "t" }, oauth := none },
      group := "default" }
    rfl rfl
    ("workflow",
      [{ coordinate := { project := "p", ctype := "workflow", configId := "wf1" },
         group := "default", environment := "env1", skip := false,
         ctype := .automation "workflow", references := [] }])
    (List.mem_singleton.mpr rfl)
    { coordinate := { project := "p", ctype := "workflow", configId := "wf1" },
      group := "default", environment := "env1", skip := false,
      ctype := .automation "workflow", references := [] }
    (List.mem_singleton.mpr rfl)
    rfl rfl

/-- C3 counterexample: the claim as stated — that *any* Automation or
Bucket configuration assigned to a non-OAuth environment is rejected at
validation time — is false for a configuration marked `Skip`:
`checkConfigsForEnvironment` only tests non-skipped configurations, so a
skipped automation config on a token-only environment passes validation
and the gate lets the run proceed. -/
theorem checkEnvironments_skipped_platform_only_counterexample :
    checkEnvironments [exampleAutomationProject true] exampleTokenEnvs = none ∧
      deployConfigsValidated [exampleAutomationProject true] exampleTokenEnvs
        (fun _ => []) = .ok [] := by
  constructor
  · rfl
  · rfl

/-! ## Shared list lemmas for the upsert claims -/

theorem filter_singleton_split {α : Type} (p : α → Bool) (l : List α) (a : α)
    (h : l.filter p = [a]) :
    ∃ l₁ l₂, l = l₁ ++ a :: l₂ ∧ p a = true ∧
      (∀ x ∈ l₁, p x = false) ∧ (∀ x ∈ l₂, p x = false) := by
  induction l with
  | nil => cases h
  | cons x rest ih =>
    by_cases hx : p x = true
    · rw [List.filter_cons_of_pos hx] at h
      have hxa : x = a := (List.cons_eq_cons.mp h).1
      have hrest : rest.filter p = [] := (List.cons_eq_cons.mp h).2
      subst hxa
      refine ⟨[], rest, rfl, hx, fun y hy => absurd hy (List.not_mem_nil y), ?_⟩
      intro y hy
      exact Bool.eq_false_iff.mpr (List.filter_eq_nil_iff.mp hrest y hy)
    · rw [List.filter_cons_of_neg (by simpa using hx)] at h
      obtain ⟨l₁, l₂, hsplit, hpa, h₁, h₂⟩ := ih h
      exact ⟨x :: l₁, l₂, by rw [hsplit]; rfl, hpa,
        fun y hy => by
          rcases List.mem_cons.mp hy with heq | htail
          · subst heq; exact Bool.eq_false_iff.mpr hx
          · exact h₁ y htail,
        h₂⟩

theorem filter_length_one_split {α : Type} (p : α → Bool) (l : List α)
    (h : (l.filter p).length = 1) :
    ∃ a l₁ l₂, l = l₁ ++ a :: l₂ ∧ p a = true ∧
      (∀ x ∈ l₁, p x = false) ∧ (∀ x ∈ l₂, p x = false) := by
  match hf : l.filter p with
  | [] => rw [hf] at h; cases h
  | [a] =>
    obtain ⟨l₁, l₂, hs⟩ := filter_singleton_split p l a hf
    exact ⟨a, l₁, l₂, hs⟩
  | a :: b :: rest => rw [hf] at h; simp at h

theorem find?_of_split {α : Type} (p : α → Bool) (l₁ l₂ : List α) (a : α)
    (h₁ : ∀ x ∈ l₁, p x = false) (ha : p a = true) :
    (l₁ ++ a :: l₂).find? p = some a := by
  induction l₁ with
  | nil => simp [List.find?_cons_of_pos, ha]
  | cons x rest ih =>
    rw [List.cons_append, List.find?_cons_of_neg _ (by
      rw [h₁ x (List.mem_cons_self _ _)]
      exact Bool.false_ne_true)]
    exact ih (fun y hy => h₁ y (List.mem_cons_of_mem _ hy))

theorem map_eq_self_of_fixed {α : Type} (f : α → α) (l : List α)
    (h : ∀ x ∈ l, f x = x) : l.map f = l := by
  induction l with
  | nil => rfl
  | cons x rest ih =>
    rw [List.map_cons, h x (List.mem_cons_self _ _),
      ih (fun y hy => h y (List.mem_cons_of_mem _ hy))]

theorem nodup_map_middle {α β : Type} (f : α → β) (l₁ l₂ : List α) (a : α)
    (h : ((l₁ ++ a :: l₂).map f).Nodup) :
    (∀ x ∈ l₁, f x ≠ f a) ∧ (∀ x ∈ l₂, f x ≠ f a) := by
  rw [List.map_append, List.map_cons] at h
  have h2 : (f a :: (l₁.map f ++ l₂.map f)).Nodup := List.nodup_middle.mp h
  have h3 : f a ∉ l₁.map f ++ l₂.map f := (List.nodup_cons.mp h2).1
  constructor
  · intro x hx heq
    exact h3 (List.mem_append_left _ (heq ▸ List.mem_map_of_mem f hx))
  · intro x hx heq
    exact h3 (List.mem_append_right _ (heq ▸ List.mem_map_of_mem f hx))

/-! ## C1 — legacy external-ID migration for settings objects -/

theorem generateExternalID_ne_legacy (c : Coordinate) (h : c.project ≠ "") :
    GenerateExternalID c ≠ GenerateLegacyExternalID c := by
  intro heq
  unfold GenerateLegacyExternalID GenerateExternalID at heq
  have hlen := congrArg String.length heq
  simp only [String.length_append] at hlen
  have hzero : c.project.length = 0 := by
    have h0 : ("" : String).length = 0 := rfl
    omega
  apply h
  have hdata : c.project.data.length = 0 := hzero
  exact String.ext (List.eq_nil_of_length_eq_zero hdata)

/-- C1: for a settings-object store holding exactly one object of the
schema whose external id equals the *legacy* external id (generated
without the project) and none carrying the new external id, the upsert
adopts and rewrites that object: afterwards exactly one object of the
schema carries the external id generated from the full coordinate, zero
carry the legacy id, and no new object is created (the store's size is
unchanged). `hnodup` is the server invariant that object ids are
unique. -/
theorem upsertSettings_legacy_migration (state : List SettingsObject)
    (freshId : String) (coord : Coordinate) (schemaId scope value : String)
    (hproj : coord.project ≠ "")
    (hnodup : (state.map (fun o => o.objectId)).Nodup)
    (hext : (state.filter (fun o =>
      o.schemaId == schemaId && o.externalId == GenerateExternalID coord)).length = 0)
    (hleg : (state.filter (fun o =>
      o.schemaId == schemaId && o.externalId == GenerateLegacyExternalID coord)).length = 1) :
    ((UpsertSettings state freshId coord schemaId scope value none).1.filter (fun o =>
      o.schemaId == schemaId && o.externalId == GenerateExternalID coord)).length = 1 ∧
    ((UpsertSettings state freshId coord schemaId scope value none).1.filter (fun o =>
      o.schemaId == schemaId && o.externalId == GenerateLegacyExternalID coord)).length = 0 ∧
    (UpsertSettings state freshId coord schemaId scope value none).1.length =
      state.length := by
  have hne := generateExternalID_ne_legacy coord hproj
  obtain ⟨L, l₁, l₂, hsplit, hpL, h₁, h₂⟩ := filter_length_one_split _ state hleg
  have hfind_ext : state.find? (fun o =>
      o.schemaId == schemaId && o.externalId == GenerateExternalID coord) = none := by
    rw [List.find?_eq_none]
    intro x hx
    have := List.filter_eq_nil_iff.mp (List.length_eq_zero.mp hext) x hx
    simpa using this
  have hfind_leg : state.find? (fun o =>
      o.schemaId == schemaId && o.externalId == GenerateLegacyExternalID coord) = some L := by
    rw [hsplit]
    exact find?_of_split _ l₁ l₂ L (fun x hx => h₁ x hx) hpL
  have hstep : UpsertSettings state freshId coord schemaId scope value none =
      (state.map (fun o =>
        if o.objectId == L.objectId then
          { o with externalId := GenerateExternalID coord, scope := scope, value := value }
        else o), L.objectId) := by
    conv_lhs => unfold UpsertSettings
    simp only [hfind_ext, hfind_leg]
  rw [hstep]
  have hLprops : L.schemaId = schemaId ∧ L.externalId = GenerateLegacyExternalID coord := by
    simpa using hpL
  have hids := nodup_map_middle (fun o => o.objectId) l₁ l₂ L (hsplit ▸ hnodup)
  have hmap : (state.map (fun o =>
      if o.objectId == L.objectId then
        { o with externalId := GenerateExternalID coord, scope := scope, value := value }
      else o)) =
      l₁ ++ ({ L with externalId := GenerateExternalID coord,
                      scope := scope, value := value } : SettingsObject) :: l₂ := by
    rw [hsplit, List.map_append, List.map_cons]
    rw [map_eq_self_of_fixed _ l₁ (fun x hx => by
      rw [if_neg]
      simp only [beq_iff_eq]
      exact hids.1 x hx)]
    rw [map_eq_self_of_fixed _ l₂ (fun x hx => by
      rw [if_neg]
      simp only [beq_iff_eq]
      exact hids.2 x hx)]
    rw [if_pos (by simp)]
  rw [hmap]
  have hextstate : ∀ x ∈ state, (x.schemaId == schemaId &&
      x.externalId == GenerateExternalID coord) = false := by
    intro x hx
    have := List.filter_eq_nil_iff.mp (List.length_eq_zero.mp hext) x hx
    simpa using Bool.eq_false_iff.mpr this
  refine ⟨?_, ?_, ?_⟩
  · rw [List.filter_append, List.filter_cons]
    rw [if_pos (by
      simp only [Bool.and_eq_true, beq_iff_eq]
      exact ⟨hLprops.1, trivial⟩)]
    rw [List.filter_eq_nil_iff.mpr (fun x hx => by
      have hxs : x ∈ state := hsplit ▸ List.mem_append_left _ hx
      simpa using Bool.eq_false_iff.mp (hextstate x hxs))]
    rw [List.filter_eq_nil_iff.mpr (fun x hx => by
      have hxs : x ∈ state := hsplit ▸
        List.mem_append_right _ (List.mem_cons_of_mem _ hx)
      simpa using Bool.eq_false_iff.mp (hextstate x hxs))]
    rfl
  · rw [List.filter_append, List.filter_cons]
    rw [if_neg (by
      simp only [Bool.and_eq_true, beq_iff_eq]
      intro hcontra
      exact hne hcontra.2)]
    rw [List.filter_eq_nil_iff.mpr (fun x hx => by
      simpa using Bool.eq_false_iff.mp (h₁ x hx))]
    rw [List.filter_eq_nil_iff.mpr (fun x hx => by
      simpa using Bool.eq_false_iff.mp (h₂ x hx))]
    rfl
  · rw [hsplit]
    simp

/-- C1 witness: a store with one object of schema "sch" carrying the
legacy external id of coordinate ("proj", "sch", "c1") — and one
unrelated object — is migrated: one object carries the new id, zero the
legacy id, and the store size is unchanged. -/
theorem upsertSettings_legacy_migration_witness :
    ((UpsertSettings
        [{ objectId := "obj1", schemaId := "sch",
           externalId := GenerateLegacyExternalID
             { project := "proj", ctype := "sch", configId := "c1" },
           scope := "environment", value := "old" },
         { objectId := "obj2", schemaId := "sch", externalId := "other",
           scope := "environment", value := "x" }]
        "fresh" { project := "proj", ctype := "sch", configId := "c1" }
        "sch" "environment" "new" none).1.filter (fun o =>
      o.schemaId == "sch" && o.externalId ==
        GenerateExternalID { project := "proj", ctype := "sch", configId := "c1" })).length
      = 1 ∧
    ((UpsertSettings
        [{ objectId := "obj1", schemaId := "sch",
           externalId := GenerateLegacyExternalID
             { project := "proj", ctype := "sch", configId := "c1" },
           scope := "environment", value := "old" },
         { objectId := "obj2", schemaId := "sch", externalId := "other",
           scope := "environment", value := "x" }]
        "fresh" { project := "proj", ctype := "sch", configId := "c1" }
        "sch" "environment" "new" none).1.filter (fun o =>
      o.schemaId == "sch" && o.externalId ==
        GenerateLegacyExternalID { project := "proj", ctype := "sch", configId := "c1" })).length
      = 0 ∧
    (UpsertSettings
        [{ objectId := "obj1", schemaId := "sch",
           externalId := GenerateLegacyExternalID
             { project := "proj", ctype := "sch", configId := "c1" },
           scope := "environment", value := "old" },
         { objectId := "obj2", schemaId := "sch", externalId := "other",
           scope := "environment", value := "x" }]
        "fresh" { project := "proj", ctype := "sch", configId := "c1" }
        "sch" "environment" "new" none).1.length = 2 :=
  upsertSettings_legacy_migration
    [{ objectId := "obj1", schemaId := "sch",
       externalId := GenerateLegacyExternalID
         { project := "proj", ctype := "sch", configId := "c1" },
       scope := "environment", value := "old" },
     { objectId := "obj2", schemaId := "sch", externalId := "other",
       scope := "environment", value := "x" }]
    "fresh" { project := "proj", ctype := "sch", configId := "c1" }
    "sch" "environment" "new"
    (by decide) (by decide) (by decide) (by decide)

/-! ## C2 — classic non-unique-name upsert -/

/-- C2: (a) with exactly one pre-existing object of the configured name
whose id differs from the deterministic id, the upsert updates that
existing object — the returned id is the pre-existing id, and both the
per-name count and the store size are unchanged (`hnodup` is the server
invariant of unique object ids); (b) with two or more objects of that
name and the deterministic id absent, the upsert creates the object at
the deterministic id and returns it, and a subsequent upsert updates it
in place (returned id again the deterministic id, store size
unchanged). -/
theorem upsertNonUniqueName_spec (state : List ClassicValue) (entityId name : String) :
    (∀ m, state.filter (fun o => o.name == name) = [m] →
      m.id ≠ entityId → (state.map (fun o => o.id)).Nodup →
      (UpsertConfigByNonUniqueNameAndId state entityId name).2 = m.id ∧
      ((UpsertConfigByNonUniqueNameAndId state entityId name).1.filter
        (fun o => o.name == name)).length = 1 ∧
      (UpsertConfigByNonUniqueNameAndId state entityId name).1.length = state.length) ∧
    (2 ≤ (state.filter (fun o => o.name == name)).length →
      (∀ o ∈ state, o.id ≠ entityId) →
      (UpsertConfigByNonUniqueNameAndId state entityId name).2 = entityId ∧
      (UpsertConfigByNonUniqueNameAndId state entityId name).1.length = state.length + 1 ∧
      ((UpsertConfigByNonUniqueNameAndId state entityId name).1.filter
        (fun o => o.name == name)).length =
        (state.filter (fun o => o.name == name)).length + 1 ∧
      (UpsertConfigByNonUniqueNameAndId
        (UpsertConfigByNonUniqueNameAndId state entityId name).1 entityId name).2 =
        entityId ∧
      (UpsertConfigByNonUniqueNameAndId
        (UpsertConfigByNonUniqueNameAndId state entityId name).1 entityId name).1.length =
        (UpsertConfigByNonUniqueNameAndId state entityId name).1.length) := by
  constructor
  · intro m hfilter hmne hnodup
    obtain ⟨l₁, l₂, hsplit, hpm, h₁, h₂⟩ := filter_singleton_split _ state m hfilter
    have hany : state.any (fun o => o.id == m.id) = true :=
      List.any_eq_true.mpr ⟨m, hsplit ▸ List.mem_append_right _ (List.mem_cons_self _ _),
        by simp⟩
    have hstep : UpsertConfigByNonUniqueNameAndId state entityId name =
        (state.map (fun o => if o.id == m.id then { o with name := name } else o), m.id) := by
      conv_lhs => unfold UpsertConfigByNonUniqueNameAndId
      simp only [hfilter]
      rw [if_neg (by simp only [beq_iff_eq]; exact hmne)]
      unfold putConfig
      rw [if_pos hany]
    rw [hstep]
    have hids := nodup_map_middle (fun o => o.id) l₁ l₂ m (hsplit ▸ hnodup)
    have hmap : (state.map (fun o => if o.id == m.id then { o with name := name } else o)) =
        l₁ ++ ({ m with name := name } : ClassicValue) :: l₂ := by
      rw [hsplit, List.map_append, List.map_cons]
      rw [map_eq_self_of_fixed _ l₁ (fun x hx => by
        rw [if_neg]
        simp only [beq_iff_eq]
        exact hids.1 x hx)]
      rw [map_eq_self_of_fixed _ l₂ (fun x hx => by
        rw [if_neg]
        simp only [beq_iff_eq]
        exact hids.2 x hx)]
      rw [if_pos (by simp)]
    rw [hmap]
    refine ⟨rfl, ?_, ?_⟩
    · rw [List.filter_append, List.filter_cons]
      rw [if_pos (by simp)]
      rw [List.filter_eq_nil_iff.mpr (fun x hx => by
        simpa using Bool.eq_false_iff.mp (h₁ x hx))]
      rw [List.filter_eq_nil_iff.mpr (fun x hx => by
        simpa using Bool.eq_false_iff.mp (h₂ x hx))]
      rfl
    · rw [hsplit]
      simp
  · intro hlen hno
    have hanyfalse : state.any (fun o => o.id == entityId) = false := by
      rw [Bool.eq_false_iff]
      intro habs
      obtain ⟨o, ho, hbeq⟩ := List.any_eq_true.mp habs
      exact hno o ho (by simpa using hbeq)
    obtain ⟨a, b, rest, hf⟩ : ∃ a b rest,
        state.filter (fun o => o.name == name) = a :: b :: rest := by
      match hf : state.filter (fun o => o.name == name) with
      | [] => rw [hf] at hlen; simp at hlen
      | [m] => rw [hf] at hlen; simp at hlen
      | a :: b :: rest => exact ⟨a, b, rest, hf⟩
    have hstep1 : UpsertConfigByNonUniqueNameAndId state entityId name =
        (state ++ [{ id := entityId, name := name }], entityId) := by
      conv_lhs => unfold UpsertConfigByNonUniqueNameAndId
      simp only [hf]
      unfold putConfig
      rw [if_neg (by rw [hanyfalse]; exact Bool.false_ne_true)]
    rw [hstep1]
    have hfilter1 : (state ++ [({ id := entityId, name := name } : ClassicValue)]).filter
        (fun o => o.name == name) =
        state.filter (fun o => o.name == name) ++ [{ id := entityId, name := name }] := by
      rw [List.filter_append]
      simp
    have hfilter1' : (state ++ [({ id := entityId, name := name } : ClassicValue)]).filter
        (fun o => o.name == name) = a :: b :: (rest ++ [{ id := entityId, name := name }]) := by
      rw [hfilter1, hf]
      rfl
    have hany2 : (state ++ [({ id := entityId, name := name } : ClassicValue)]).any
        (fun o => o.id == entityId) = true :=
      List.any_eq_true.mpr ⟨{ id := entityId, name := name },
        List.mem_append_right _ (List.mem_cons_self _ _), by simp⟩
    have hstep2 : UpsertConfigByNonUniqueNameAndId
        (state ++ [({ id := entityId, name := name } : ClassicValue)]) entityId name =
        ((state ++ [({ id := entityId, name := name } : ClassicValue)]).map
          (fun o => if o.id == entityId then { o with name := name } else o), entityId) := by
      conv_lhs => unfold UpsertConfigByNonUniqueNameAndId
      simp only [hfilter1']
      unfold putConfig
      rw [if_pos hany2]
    refine ⟨rfl, by simp, ?_, ?_, ?_⟩
    · rw [hfilter1]
      simp
    · rw [hstep2]
    · rw [hstep2]
      simp

/-- C2 witness: both rows of the decision table at concrete stores.
With one object named "N" at id "R" ≠ deterministic id "D", the upsert
returns "R" and the store stays at one "N"-object of two total. With two
objects named "N" and "D" absent, the first upsert creates and returns
"D" (three objects, three named "N"), and the second returns "D" with
the size unchanged. -/
theorem upsertNonUniqueName_spec_witness :
    ((UpsertConfigByNonUniqueNameAndId
        [{ id := "R", name := "N" }, { id := "X", name := "M" }] "D" "N").2 = "R" ∧
      ((UpsertConfigByNonUniqueNameAndId
        [{ id := "R", name := "N" }, { id := "X", name := "M" }] "D" "N").1.filter
          (fun o => o.name == "N")).length = 1 ∧
      (UpsertConfigByNonUniqueNameAndId
        [{ id := "R", name := "N" }, { id := "X", name := "M" }] "D" "N").1.length = 2) ∧
    ((UpsertConfigByNonUniqueNameAndId
        [{ id := "R", name := "N" }, { id := "S", name := "N" }] "D" "N").2 = "D" ∧
      (UpsertConfigByNonUniqueNameAndId
        [{ id := "R", name := "N" }, { id := "S", name := "N" }] "D" "N").1.length = 3 ∧
      ((UpsertConfigByNonUniqueNameAndId
        [{ id := "R", name := "N" }, { id := "S", name := "N" }] "D" "N").1.filter
          (fun o => o.name == "N")).length = 3 ∧
      (UpsertConfigByNonUniqueNameAndId
        (UpsertConfigByNonUniqueNameAndId
          [{ id := "R", name := "N" }, { id := "S", name := "N" }] "D" "N").1 "D" "N").2
        = "D" ∧
      (UpsertConfigByNonUniqueNameAndId
        (UpsertConfigByNonUniqueNameAndId
          [{ id := "R", name := "N" }, { id := "S", name := "N" }] "D" "N").1 "D" "N").1.length
        = 3) := by
  constructor
  · have h := (upsertNonUniqueName_spec
      [{ id := "R", name := "N" }, { id := "X", name := "M" }] "D" "N").1
      { id := "R", name := "N" } (by decide) (by decide) (by decide)
    exact h
  · have h := (upsertNonUniqueName_spec
      [{ id := "R", name := "N" }, { id := "S", name := "N" }] "D" "N").2
      (by decide) (by decide)
    obtain ⟨h1, h2, h3, h4, h5⟩ := h
    refine ⟨h1, by rw [h2]; rfl, ?_, h4, by rw [h5, h2]; rfl⟩
    rw [h3]
    decide

/-! ## C4 — cyclic parameter dependencies abort before any network call -/

theorem pickReadyParameter_ready (all l : List NamedParameter)
    (q : NamedParameter) (rest : List NamedParameter)
    (h : pickReadyParameter all l = some (q, rest)) :
    parameterReady all q = true := by
  induction l generalizing rest with
  | nil => cases h
  | cons p tail ih =>
    unfold pickReadyParameter at h
    by_cases hp : parameterReady all p = true
    · rw [if_pos hp] at h
      cases h
      exact hp
    · rw [if_neg hp] at h
      cases hrec : pickReadyParameter all tail with
      | none => rw [hrec] at h; cases h
      | some qr =>
        rw [hrec] at h
        cases h
        exact ih qr.2 (by rw [hrec])

theorem pickReadyParameter_mem (all l : List NamedParameter)
    (q : NamedParameter) (rest : List NamedParameter)
    (h : pickReadyParameter all l = some (q, rest)) :
    ∀ x ∈ l, x = q ∨ x ∈ rest := by
  induction l generalizing rest with
  | nil => cases h
  | cons p tail ih =>
    unfold pickReadyParameter at h
    by_cases hp : parameterReady all p = true
    · rw [if_pos hp] at h
      cases h
      intro x hx
      rcases List.mem_cons.mp hx with heq | htail
      · exact Or.inl heq
      · exact Or.inr htail
    · rw [if_neg hp] at h
      cases hrec : pickReadyParameter all tail with
      | none => rw [hrec] at h; cases h
      | some qr =>
        rw [hrec] at h
        cases h
        intro x hx
        rcases List.mem_cons.mp hx with heq | htail
        · exact Or.inr (heq ▸ List.mem_cons_self _ _)
        · rcases ih qr.2 (by rw [hrec]) x htail with heq | hmem
          · exact Or.inl heq
          · exact Or.inr (List.mem_cons_of_mem _ hmem)

theorem cycle_member_not_ready (remaining : List NamedParameter) (cyc : List String)
    (hcyc : IsRefCycle remaining cyc) (i : Nat) (h : i < cyc.length)
    (p : NamedParameter) (_hp : p ∈ remaining) (_hname : p.name = cyc.get ⟨i, h⟩)
    (href : cyc.get ⟨(i + 1) % cyc.length,
      Nat.mod_lt _ (Nat.lt_of_le_of_lt (Nat.zero_le i) h)⟩ ∈ p.references) :
    parameterReady remaining p = false := by
  rw [Bool.eq_false_iff]
  intro hready
  have hnext := hcyc.2 ((i + 1) % cyc.length)
    (Nat.mod_lt _ (Nat.lt_of_le_of_lt (Nat.zero_le i) h))
  obtain ⟨pn, hpnmem, hpnname, _⟩ := hnext
  have hall := List.all_eq_true.mp hready _ href
  have hany : remaining.any (fun q => q.name ==
      cyc.get ⟨(i + 1) % cyc.length,
        Nat.mod_lt _ (Nat.lt_of_le_of_lt (Nat.zero_le i) h)⟩) = true :=
    List.any_eq_true.mpr ⟨pn, hpnmem, by rw [hpnname]; exact beq_self_eq_true _⟩
  rw [hany] at hall
  cases hall

theorem pickReady_preserves_cycle (remaining : List NamedParameter)
    (q : NamedParameter) (rest : List NamedParameter) (cyc : List String)
    (hpick : pickReadyParameter remaining remaining = some (q, rest))
    (hcyc : IsRefCycle remaining cyc) : IsRefCycle rest cyc := by
  refine ⟨hcyc.1, ?_⟩
  intro i h
  obtain ⟨p, hpmem, hpname, hpref⟩ := hcyc.2 i h
  refine ⟨p, ?_, hpname, hpref⟩
  have hpnotready := cycle_member_not_ready remaining cyc hcyc i h p hpmem hpname hpref
  have hqready := pickReadyParameter_ready remaining remaining q rest hpick
  rcases pickReadyParameter_mem remaining remaining q rest hpick p hpmem with heq | hmem
  · exfalso
    rw [heq, hqready] at hpnotready
    cases hpnotready
  · exact hmem

theorem sortParametersLoop_cycle_error (fuel : Nat) (remaining : List NamedParameter)
    (cyc : List String) (hcyc : IsRefCycle remaining cyc) :
    ∃ e, sortParametersLoop fuel remaining = .error e := by
  induction fuel generalizing remaining with
  | zero =>
    cases remaining with
    | nil =>
      exfalso
      have hpos : 0 < cyc.length := List.length_pos.mpr hcyc.1
      obtain ⟨p, hpmem, _, _⟩ := hcyc.2 0 hpos
      cases hpmem
    | cons r rs =>
      refine ⟨⟨(r :: rs).map (fun p => p.name)⟩, ?_⟩
      rfl
  | succ fuel ih =>
    cases remaining with
    | nil =>
      exfalso
      have hpos : 0 < cyc.length := List.length_pos.mpr hcyc.1
      obtain ⟨p, hpmem, _, _⟩ := hcyc.2 0 hpos
      cases hpmem
    | cons r rs =>
      cases hpick : pickReadyParameter (r :: rs) (r :: rs) with
      | none =>
        refine ⟨⟨(r :: rs).map (fun p => p.name)⟩, ?_⟩
        conv_lhs => unfold sortParametersLoop
        simp only [hpick]
      | some qr =>
        have hcyc' : IsRefCycle qr.2 cyc :=
          pickReady_preserves_cycle (r :: rs) qr.1 qr.2 cyc (by rw [hpick]) hcyc
        obtain ⟨e, he⟩ := ih qr.2 hcyc'
        refine ⟨e, ?_⟩
        conv_lhs => unfold sortParametersLoop
        simp only [hpick, he, Except.map]

/-- C4: a configuration whose own parameters form a reference cycle
fails the parameter topological sort, so its deploy aborts with a
`CyclicParameterDependency` error and performs zero network calls —
before any template rendering or upsert. -/
theorem deployConfig_cyclic (params : List NamedParameter)
    (resolveAndRender : List NamedParameter → String) (cyc : List String)
    (hcyc : IsRefCycle params cyc) :
    (∃ e, (deployConfig params resolveAndRender).1 =
      .error (.cyclicParameterDependency e)) ∧
    (deployConfig params resolveAndRender).2 = [] := by
  obtain ⟨e, he⟩ := sortParametersLoop_cycle_error params.length params cyc hcyc
  have hsort : sortParameters params = .error e := he
  unfold deployConfig
  rw [hsort]
  exact ⟨⟨e, rfl⟩, rfl⟩

/-- C4 witness: the test's cycle — parameter "name" references "owner"
and "owner" references "name" — aborts the deploy with a
`CyclicParameterDependency` error and an empty network-call list. -/
theorem deployConfig_cyclic_witness :
    (∃ e, (deployConfig
      [{ name := "name", references := ["owner"] },
       { name := "owner", references := ["name"] }] (fun _ => "payload")).1 =
      .error (.cyclicParameterDependency e)) ∧
    (deployConfig
      [{ name := "name", references := ["owner"] },
       { name := "owner", references := ["name"] }] (fun _ => "payload")).2 = [] :=
  deployConfig_cyclic
    [{ name := "name", references := ["owner"] },
     { name := "owner", references := ["name"] }]
    (fun _ => "payload") ["name", "owner"]
    ⟨by decide, by
      intro i h
      have h2 : i < 2 := by simpa using h
      interval_cases i
      · exact ⟨{ name := "name", references := ["owner"] },
          List.mem_cons_self _ _, rfl, List.mem_cons_self _ _⟩
      · exact ⟨{ name := "owner", references := ["name"] },
          List.mem_cons_of_mem _ (List.mem_cons_self _ _), rfl,
          List.mem_cons_self _ _⟩⟩

end Monaco
